import Mathlib

/-!
Shallow embedding of the discrete-event queueing simulator in
`ConsoleApplication1.cpp`: three uniform sources feed two exponential
devices through a capacity-3 buffer with a packet-service selection
discipline, largest-source eviction, round-robin device selection and a
time-ordered event calendar driving the main loop.

Random draws are modelled as injected oracle streams `intv i k` (the
`k`-th inter-arrival interval drawn by source `i`) and `svc d k` (the
`k`-th service time drawn by device `d`); simulated time is rational.
Pointer identity of `Request` objects is modelled by a ghost allocation
stamp `tag` handed out by a counter in the simulation state.
-/

namespace QueueSim

/-- The value of the C++ `INT_MAX` used to seed the minimum scan in
`Buffer::getNextRequest`. -/
def INT_MAX : ℤ := 2 ^ 31 - 1

/-- Mirror of the C++ `Request`.  `tag` is a ghost allocation stamp
modelling pointer identity: each `new Request` receives a fresh tag. -/
structure Request where
  source_id : ℤ
  request_id : ℤ
  arrival_time : ℚ
  start_service_time : ℚ
  finish_service_time : ℚ
  tag : ℕ
  deriving DecidableEq

/-- Placeholder request used only as the default value of out-of-range
list reads (which never happen under the engine's invariants). -/
def dummyReq : Request := ⟨0, 0, 0, 0, 0, 0⟩

/-- Mirror of `Event::Type`. -/
inductive EventType where
  | arrival
  | departure
  deriving DecidableEq

/-- Mirror of the C++ `Event`: timestamp, kind, source id (arrival) or
device id (departure), and the request attached to departures. -/
structure Event where
  time : ℚ
  type : EventType
  entity_id : ℤ
  request : Option Request
  deriving DecidableEq

/-! ### Buffer operations (`class Buffer`)

The C++ buffer is a `std::queue<Request*>`; every scan dequeues the
whole queue, keeps a running best/found candidate outside the queue and
re-enqueues the rest from a temporary queue.  We model the queue as a
`List Request` whose head is the queue front, and translate each
dequeue/requeue loop into a recursion that returns the candidate
together with the final content of the queue. -/

/-- The first `while` loop of `Buffer::getNextRequest`: search for the
first request of source `m`; the found request is kept out of the queue
(it is not pushed onto `temp`), everything else is re-enqueued in
order. -/
def findPackScan (m : ℤ) : List Request → Option Request × List Request
  | [] => (none, [])
  | r :: rs =>
    if r.source_id = m then (some r, rs)
    else
      let p := findPackScan m rs
      (p.1, r :: p.2)

/-- The minimum scan of `Buffer::getNextRequest`: `best`/`bs` are the
running `best_request`/`best_source` (initially `none` and `INT_MAX`),
`temp` is the temporary queue.  A strictly smaller source id displaces
the running best, which is then pushed onto `temp`. -/
def minScanAux : List Request → Option Request → ℤ → List Request →
    Option Request × List Request
  | [], best, _, temp => (best, temp)
  | r :: rs, best, bs, temp =>
    if r.source_id < bs then minScanAux rs (some r) r.source_id (temp ++ best.toList)
    else minScanAux rs best bs (temp ++ [r])

/-- The tail of `Buffer::getNextRequest` after the packet phase: empty
check, minimum scan, and update of the serving-source marker (`-1`
encodes the C++ "no current packet" value). -/
def minPhase (l : List Request) : Option Request × List Request × ℤ :=
  if l.isEmpty then (none, [], -1)
  else
    match minScanAux l none INT_MAX [] with
    | (some b, out) => (some b, out, b.source_id)
    | (none, out) => (none, out, -1)

/-- Mirror of `Buffer::getNextRequest`.  Returns the selected request,
the resulting queue content, and the new value of the by-reference
`current_serving_source` marker. -/
def getNextRequest (l : List Request) (m : ℤ) : Option Request × List Request × ℤ :=
  if l.isEmpty then (none, l, -1)
  else if m ≠ -1 then
    match findPackScan m l with
    | (some found, rest) => (some found, rest, m)
    | (none, rest) => minPhase rest
  else minPhase l

/-- The scan of `Buffer::findRequestToReject`: `worst`/`ws` are the
running `worst_request`/`worst_source` (initially `none` and `-1`). -/
def rejectScanAux : List Request → Option Request → ℤ → List Request →
    Option Request × List Request
  | [], worst, _, temp => (worst, temp)
  | r :: rs, worst, ws, temp =>
    if ws < r.source_id then rejectScanAux rs (some r) r.source_id (temp ++ worst.toList)
    else rejectScanAux rs worst ws (temp ++ [r])

/-- Mirror of `Buffer::findRequestToReject`: returns the candidate and
the resulting queue content (the candidate itself is not re-enqueued). -/
def findRequestToReject (l : List Request) : Option Request × List Request :=
  if l.isEmpty then (none, []) else rejectScanAux l none (-1) []

/-- Mirror of `Buffer::removeRequest`: keep exactly the entries that are
not (pointer-)equal to `req`. -/
def removeRequest (req : Request) (l : List Request) : List Request :=
  l.filter fun r => r ≠ req

/-- Mirror of `Buffer::isFull` for capacity `maxSize`. -/
def isFull (maxSize : ℕ) (l : List Request) : Bool := decide (maxSize ≤ l.length)

/-! ### Device selection (`class DeviceSelector`)

Devices are modelled by their occupancy slot: `none` means free.  The
C++ selector keeps a cursor `last_used : int` (initially `-1`), starts
scanning at `(last_used + 1) % num_devices` and probes `num_devices`
indices in rotated order.  `Int.tmod` matches the C++ `%` on `int`. -/

/-- The probe loop of `DeviceSelector::getFreeDevice`: probe index
`(start + i) % n` while `k` probes remain. -/
def scanFree (devs : List (Option Request)) (n start : ℕ) : ℕ → ℕ → Option ℕ
  | _, 0 => none
  | i, k + 1 =>
    let idx := (start + i) % n
    if (devs.getD idx (some dummyReq)).isNone then some idx
    else scanFree devs n start (i + 1) k

/-- Mirror of `DeviceSelector::getFreeDevice`: returns the selected
device index (if any) and the new cursor value. -/
def getFreeDevice (n : ℕ) (lastUsed : ℤ) (devs : List (Option Request)) :
    Option ℕ × ℤ :=
  if devs.isEmpty then (none, lastUsed)
  else
    let start := ((lastUsed + 1).tmod (n : ℤ)).toNat
    match scanFree devs n start 0 n with
    | some idx => (some idx, (idx : ℤ))
    | none => (none, lastUsed)

/-! ### Specification-side reference functions

These two definitions follow the words of spec §4.5 (`selectNext`) and
§4.4 (`selectFree`); they exist only to be compared with the code-side
definitions above. -/

/-- Spec §4.5 `selectNext`: on an empty buffer return "none" and clear
the marker; if the marker names a source and a request of that source is
pending, return it (the first one in buffer order) with the marker
unchanged; otherwise return the request whose source id is smallest,
ties broken by the first-encountered entry, and set the marker to its
source id. -/
def selectNextSpec (l : List Request) (m : ℤ) : Option Request × ℤ :=
  if l.isEmpty then (none, -1)
  else
    let minPick := l.find? fun r => l.all fun x => decide (r.source_id ≤ x.source_id)
    if m ≠ -1 then
      match l.find? (fun r => decide (r.source_id = m)) with
      | some r => (some r, m)
      | none =>
        match minPick with
        | some r => (some r, r.source_id)
        | none => (none, -1)
    else
      match minPick with
      | some r => (some r, r.source_id)
      | none => (none, -1)

/-- The rotated probe order of spec §4.4: indices starting just after
the cursor, modulo the pool size. -/
def rotOrder (n start : ℕ) : List ℕ := (List.range n).map fun i => (start + i) % n

/-- Spec §4.4 `selectFree`: the first free device in rotated order
starting just after the last returned index, or none if all are busy. -/
def selectFreeSpec (devs : List (Option Request)) (lastUsed : ℤ) : Option ℕ :=
  (rotOrder devs.length (((lastUsed + 1) % (devs.length : ℤ)).toNat)).find?
    fun idx => (devs.getD idx (some dummyReq)).isNone

/-! ### The simulation engine (`class SimulationModel`)

The state mirrors the fields of `SimulationModel`; `intv_count` and
`svc_count` are the read positions into the oracle streams, `alloc` is
the ghost allocation counter, and `served_log` is a ghost list recording
(at the moment the departure statistics are accumulated) every request
that completed service. -/

structure SimState where
  calendar : List Event
  buffer : List Request
  devices : List (Option Request)
  last_used : ℤ
  current_time : ℚ
  current_serving_source : ℤ
  requests_generated : ℕ
  requests_served : ℕ
  requests_rejected : ℕ
  source_requests : List ℕ
  source_rejections : List ℕ
  source_total_time : List ℚ
  source_waiting_time : List ℚ
  device_busy_time : List ℚ
  intv_count : List ℕ
  svc_count : List ℕ
  alloc : ℕ
  served_log : List Request
  deriving DecidableEq

/-- Increment slot `i` of a counter vector (C++ `v[i]++`). -/
def bump (l : List ℕ) (i : ℕ) : List ℕ := l.set i (l.getD i 0 + 1)

/-- Add `x` to slot `i` of an accumulator vector (C++ `v[i] += x`). -/
def addAt (l : List ℚ) (i : ℕ) (x : ℚ) : List ℚ := l.set i (l.getD i 0 + x)

/-- The request object created at the top of `processArrival`:
`new Request(source_id, source_requests[source_id], current_time)` after
the `source_requests[source_id]++` increment. -/
def arrivalRequest (srcId : ℤ) (s : SimState) : Request :=
  { source_id := srcId,
    request_id := ((bump s.source_requests srcId.toNat).getD srcId.toNat 0 : ℤ),
    arrival_time := s.current_time, start_service_time := 0,
    finish_service_time := 0, tag := s.alloc }

/-- The arrival event scheduled for the source's next self-arrival. -/
def nextArrivalEvent (intv : ℕ → ℕ → ℚ) (srcId : ℤ) (s : SimState) : Event :=
  ⟨s.current_time + intv srcId.toNat (s.intv_count.getD srcId.toNat 0),
    .arrival, srcId, none⟩

/-- Mirror of `SimulationModel::processArrival` for the configured model
(3 sources, 2 devices, buffer capacity 3): count the request, schedule
the source's next arrival, then either start service on a free device or
place the request into the buffer, evicting the rejection candidate when
the buffer is full. -/
def processArrival (intv svc : ℕ → ℕ → ℚ) (srcId : ℤ) (s : SimState) : SimState :=
  match getFreeDevice 2 s.last_used s.devices with
  | (some d, lu) =>
    let req' := { arrivalRequest srcId s with start_service_time := s.current_time }
    { s with
      requests_generated := s.requests_generated + 1,
      source_requests := bump s.source_requests srcId.toNat,
      intv_count := bump s.intv_count srcId.toNat,
      alloc := s.alloc + 1,
      devices := s.devices.set d (some req'),
      last_used := lu,
      svc_count := bump s.svc_count d,
      calendar := (s.calendar ++ [nextArrivalEvent intv srcId s]) ++
        [(⟨s.current_time + svc d (s.svc_count.getD d 0), .departure, (d : ℤ),
           some req'⟩ : Event)] }
  | (none, lu) =>
    if isFull 3 s.buffer then
      match findRequestToReject s.buffer with
      | (some rej, buf) =>
        { s with
          requests_generated := s.requests_generated + 1,
          source_requests := bump s.source_requests srcId.toNat,
          intv_count := bump s.intv_count srcId.toNat,
          alloc := s.alloc + 1,
          last_used := lu,
          source_rejections := bump s.source_rejections rej.source_id.toNat,
          requests_rejected := s.requests_rejected + 1,
          buffer := removeRequest rej buf ++ [arrivalRequest srcId s],
          calendar := s.calendar ++ [nextArrivalEvent intv srcId s] }
      | (none, buf) =>
        { s with
          requests_generated := s.requests_generated + 1,
          source_requests := bump s.source_requests srcId.toNat,
          intv_count := bump s.intv_count srcId.toNat,
          alloc := s.alloc + 1,
          last_used := lu,
          buffer := buf ++ [arrivalRequest srcId s],
          calendar := s.calendar ++ [nextArrivalEvent intv srcId s] }
    else
      { s with
        requests_generated := s.requests_generated + 1,
        source_requests := bump s.source_requests srcId.toNat,
        intv_count := bump s.intv_count srcId.toNat,
        alloc := s.alloc + 1,
        last_used := lu,
        buffer := s.buffer ++ [arrivalRequest srcId s],
        calendar := s.calendar ++ [nextArrivalEvent intv srcId s] }

/-- The second half of `SimulationModel::processDeparture`: if the
buffer is non-empty, pull the next request under the packet discipline,
remove it, and start it on a free device when one exists. -/
def departurePull (svc : ℕ → ℕ → ℚ) (s : SimState) : SimState :=
  if s.buffer.isEmpty then s
  else
    match getNextRequest s.buffer s.current_serving_source with
    | (some nr, buf, m') =>
      match getFreeDevice 2 s.last_used s.devices with
      | (some d2, lu) =>
        let nr' := { nr with start_service_time := s.current_time }
        { s with
          buffer := removeRequest nr buf,
          current_serving_source := m',
          devices := s.devices.set d2 (some nr'),
          last_used := lu,
          svc_count := bump s.svc_count d2,
          calendar := s.calendar ++
            [(⟨s.current_time + svc d2 (s.svc_count.getD d2 0), .departure, (d2 : ℤ),
               some nr'⟩ : Event)] }
      | (none, lu) =>
        { s with
          buffer := removeRequest nr buf,
          current_serving_source := m',
          last_used := lu }
    | (none, buf, m') => { s with buffer := buf, current_serving_source := m' }

/-- Mirror of `SimulationModel::processDeparture`: free the device,
account the finished request (if any), then pull from the buffer. -/
def processDeparture (svc : ℕ → ℕ → ℚ) (devId : ℤ) (s : SimState) : SimState :=
  let d := devId.toNat
  match s.devices.getD d none with
  | some fr =>
    let fr' := { fr with finish_service_time := s.current_time }
    departurePull svc
      { s with
        devices := s.devices.set d none,
        requests_served := s.requests_served + 1,
        source_total_time :=
          addAt s.source_total_time fr'.source_id.toNat
            (fr'.finish_service_time - fr'.arrival_time),
        source_waiting_time :=
          addAt s.source_waiting_time fr'.source_id.toNat
            (fr'.start_service_time - fr'.arrival_time),
        device_busy_time :=
          addAt s.device_busy_time d
            (fr'.finish_service_time - fr'.start_service_time),
        served_log := s.served_log ++ [fr'] }
  | none => departurePull svc { s with devices := s.devices.set d none }

/-- Dispatch of the main loop body on the popped event. -/
def processEvent (intv svc : ℕ → ℕ → ℚ) (e : Event) (s : SimState) : SimState :=
  match e.type with
  | .arrival => processArrival intv svc e.entity_id s
  | .departure => processDeparture svc e.entity_id s

/-- Pop of the `std::priority_queue` ordered by ascending time: return a
minimum-time event (the first among equal times) and the remaining
events. -/
def popMin : List Event → Option (Event × List Event)
  | [] => none
  | e :: es =>
    match popMin es with
    | none => some (e, [])
    | some (m, rest) =>
      if e.time ≤ m.time then some (e, es) else some (m, e :: rest)

/-- One iteration of the main loop after the guard: pop the earliest
event, advance the clock to its timestamp, dispatch. -/
def stepD (intv svc : ℕ → ℕ → ℚ) (s : SimState) : Option SimState :=
  match popMin s.calendar with
  | none => none
  | some (e, rest) =>
    some (processEvent intv svc e { s with calendar := rest, current_time := e.time })

/-- The guard of the main loop in `SimulationModel::run`. -/
def loopCond (maxT : ℚ) (maxR : ℕ) (s : SimState) : Prop :=
  s.calendar ≠ [] ∧ s.current_time < maxT ∧ s.requests_served < maxR

instance (maxT : ℚ) (maxR : ℕ) (s : SimState) : Decidable (loopCond maxT maxR s) := by
  unfold loopCond
  infer_instance

/-- Fuelled main loop of `SimulationModel::run`: `none` means the fuel
ran out before the guard failed. -/
def runLoop (intv svc : ℕ → ℕ → ℚ) (maxT : ℚ) (maxR : ℕ) :
    ℕ → SimState → Option SimState
  | 0, _ => none
  | fuel + 1, s =>
    if loopCond maxT maxR s then
      match stepD intv svc s with
      | some s' => runLoop intv svc maxT maxR fuel s'
      | none => none
    else some s

/-- The state built by the `SimulationModel` constructor: one initial
arrival per source at time `intv i 0`, everything else empty. -/
def initState (intv : ℕ → ℕ → ℚ) : SimState :=
  { calendar := [⟨intv 0 0, .arrival, 0, none⟩, ⟨intv 1 0, .arrival, 1, none⟩,
                 ⟨intv 2 0, .arrival, 2, none⟩],
    buffer := [], devices := [none, none], last_used := -1,
    current_time := 0, current_serving_source := -1,
    requests_generated := 0, requests_served := 0, requests_rejected := 0,
    source_requests := [0, 0, 0], source_rejections := [0, 0, 0],
    source_total_time := [0, 0, 0], source_waiting_time := [0, 0, 0],
    device_busy_time := [0, 0], intv_count := [1, 1, 1], svc_count := [0, 0],
    alloc := 0, served_log := [] }

/-- One step of the engine, as a relation: some pending event of minimal
timestamp is popped and processed.  This over-approximates the main loop
(it does not require the loop guard), so every state visited by
`SimulationModel::run` is reachable in this sense. -/
def Step (intv svc : ℕ → ℕ → ℚ) (s s' : SimState) : Prop :=
  ∃ e ∈ s.calendar, (∀ e' ∈ s.calendar, e.time ≤ e'.time) ∧
    s' = processEvent intv svc e
      { s with calendar := s.calendar.erase e, current_time := e.time }

/-- States reachable by the engine from its initial state. -/
def Reachable (intv svc : ℕ → ℕ → ℚ) : SimState → Prop :=
  Relation.ReflTransGen (Step intv svc) (initState intv)

/-! ### Lemmas about the buffer scans -/

/-- `find?` only depends on the predicate's values on the list. -/
theorem find?_congr_mem {α : Type} {p q : α → Bool} :
    ∀ l : List α, (∀ a ∈ l, p a = q a) → l.find? p = l.find? q := by
  intro l h
  induction l with
  | nil => rfl
  | cons a t ih =>
    have ha := h a (by simp)
    simp only [List.find?_cons, ← ha]
    cases hp : p a
    · exact ih fun x hx => h x (by simp [hx])
    · rfl

theorem findPackScan_fst (m : ℤ) : ∀ l : List Request,
    (findPackScan m l).1 = l.find? fun r => decide (r.source_id = m) := by
  intro l
  induction l with
  | nil => rfl
  | cons r rs ih =>
    by_cases h : r.source_id = m
    · simp [findPackScan, h, List.find?_cons]
    · simp [findPackScan, h, List.find?_cons, ih]

theorem findPackScan_none (m : ℤ) : ∀ l : List Request,
    (findPackScan m l).1 = none → (findPackScan m l).2 = l := by
  intro l
  induction l with
  | nil => intro; rfl
  | cons r rs ih =>
    by_cases h : r.source_id = m
    · simp [findPackScan, h]
    · simp only [findPackScan, if_neg h]
      intro hn
      rw [ih hn]

theorem findPackScan_perm (m : ℤ) : ∀ (l : List Request) (r : Request),
    (findPackScan m l).1 = some r → l.Perm (r :: (findPackScan m l).2) := by
  intro l
  induction l with
  | nil => intro r h; simp [findPackScan] at h
  | cons a rs ih =>
    intro r h
    by_cases ha : a.source_id = m
    · simp only [findPackScan, if_pos ha] at h ⊢
      cases h
      exact List.Perm.refl _
    · simp only [findPackScan, if_neg ha] at h ⊢
      exact ((ih r h).cons a).trans (List.Perm.swap r a _)

/-- Reformulation of the running minimum kept by the C++ scan. -/
def runMin : Request → List Request → Request
  | b, [] => b
  | b, r :: rs => runMin (if r.source_id < b.source_id then r else b) rs

theorem runMin_mem : ∀ (l : List Request) (b : Request), runMin b l ∈ b :: l := by
  intro l
  induction l with
  | nil => intro b; simp [runMin]
  | cons r rs ih =>
    intro b
    show runMin (if r.source_id < b.source_id then r else b) rs ∈ b :: r :: rs
    rcases List.mem_cons.1 (ih (if r.source_id < b.source_id then r else b)) with h | h
    · rw [h]
      by_cases hc : r.source_id < b.source_id <;> simp [hc]
    · simp [h]

theorem runMin_le : ∀ (l : List Request) (b : Request),
    ∀ x ∈ b :: l, (runMin b l).source_id ≤ x.source_id := by
  intro l
  induction l with
  | nil => intro b x hx; simp at hx; simp [runMin, hx]
  | cons r rs ih =>
    intro b x hx
    show (runMin (if r.source_id < b.source_id then r else b) rs).source_id ≤ _
    set b' := if r.source_id < b.source_id then r else b with hb'
    have hb'b : b'.source_id ≤ b.source_id := by
      rw [hb']; by_cases hc : r.source_id < b.source_id <;> simp [hc]; omega
    have hb'r : b'.source_id ≤ r.source_id := by
      rw [hb']; by_cases hc : r.source_id < b.source_id <;> simp [hc]; omega
    have hle : (runMin b' rs).source_id ≤ b'.source_id := ih b' b' (by simp)
    rcases List.mem_cons.1 hx with h | h
    · subst h; exact hle.trans hb'b
    · rcases List.mem_cons.1 h with h' | h'
      · subst h'; exact hle.trans hb'r
      · exact ih b' x (by simp [h'])

theorem runMin_find? : ∀ (l : List Request) (b : Request),
    (b :: l).find? (fun r => (b :: l).all fun x => decide (r.source_id ≤ x.source_id))
      = some (runMin b l) := by
  intro l
  induction l with
  | nil =>
    intro b
    simp [List.find?_cons, runMin]
  | cons r rs ih =>
    intro b
    by_cases hlt : r.source_id < b.source_id
    · -- the head `b` is not minimal, and the scan switches to `r`
      have hrm : runMin b (r :: rs) = runMin r rs := by simp [runMin, hlt]
      have hPb :
          ((b :: r :: rs).all fun x => decide (b.source_id ≤ x.source_id)) = false :=
        List.all_eq_false.2 ⟨r, by simp, by simp; omega⟩
      rw [hrm, List.find?_cons, hPb]
      have hcongr :
          (r :: rs).find? (fun y => (b :: r :: rs).all fun x => decide (y.source_id ≤ x.source_id))
            = (r :: rs).find? (fun y => (r :: rs).all fun x => decide (y.source_id ≤ x.source_id)) := by
        apply find?_congr_mem
        intro y hy
        cases hQ : (r :: rs).all fun x => decide (y.source_id ≤ x.source_id)
        · apply List.all_eq_false.2
          rcases List.all_eq_false.1 hQ with ⟨z, hz, hyz⟩
          exact ⟨z, by simp [List.mem_cons.1 hz], hyz⟩
        · have hQ' := List.all_eq_true.1 hQ
          apply List.all_eq_true.2
          intro x hx
          rcases List.mem_cons.1 hx with h' | h'
          · subst h'
            have := hQ' r (by simp)
            simp at this ⊢
            omega
          · exact hQ' x h'
      rw [hcongr, ih r]
    · -- the head `b` survives the comparison with `r`
      push_neg at hlt
      have hrm : runMin b (r :: rs) = runMin b rs := by
        have h0 : ¬ r.source_id < b.source_id := by omega
        simp [runMin, h0]
      rw [hrm, List.find?_cons]
      cases hPb : (b :: r :: rs).all fun x => decide (b.source_id ≤ x.source_id)
      · -- b is not minimal overall
        have hQ'b :
            ((b :: rs).all fun x => decide (b.source_id ≤ x.source_id)) = false := by
          rcases List.all_eq_false.1 hPb with ⟨z, hz, hbz⟩
          apply List.all_eq_false.2
          rcases List.mem_cons.1 hz with h' | h'
          · exact ⟨z, by simp [h'], hbz⟩
          · rcases List.mem_cons.1 h' with h'' | h''
            · exfalso
              subst h''
              simp at hbz
              omega
            · exact ⟨z, by simp [h''], hbz⟩
        have ihb := ih b
        rw [List.find?_cons, hQ'b] at ihb
        have hPr :
            ((b :: r :: rs).all fun x => decide (r.source_id ≤ x.source_id)) = false := by
          cases hq : (b :: r :: rs).all fun x => decide (r.source_id ≤ x.source_id)
          · rfl
          · exfalso
            have hq' := List.all_eq_true.1 hq
            have hrb := hq' b (by simp)
            simp at hrb
            rcases List.all_eq_false.1 hQ'b with ⟨z, hz, hbz⟩
            rcases List.mem_cons.1 hz with h' | h'
            · subst h'; simp at hbz
            · have := hq' z (by simp [h'])
              simp at this hbz
              omega
        rw [List.find?_cons, hPr]
        have hcongr :
            rs.find? (fun y => (b :: r :: rs).all fun x => decide (y.source_id ≤ x.source_id))
              = rs.find? (fun y => (b :: rs).all fun x => decide (y.source_id ≤ x.source_id)) := by
          apply find?_congr_mem
          intro y hy
          cases hQ : (b :: rs).all fun x => decide (y.source_id ≤ x.source_id)
          · apply List.all_eq_false.2
            rcases List.all_eq_false.1 hQ with ⟨z, hz, hyz⟩
            refine ⟨z, ?_, hyz⟩
            rcases List.mem_cons.1 hz with h' | h' <;> simp [h']
          · have hQ' := List.all_eq_true.1 hQ
            apply List.all_eq_true.2
            intro x hx
            have hyb := hQ' b (by simp)
            simp at hyb
            rcases List.mem_cons.1 hx with h' | h'
            · subst h'; simpa using hyb
            · rcases List.mem_cons.1 h' with h'' | h''
              · subst h''; simp; omega
              · exact hQ' x (by simp [h''])
        rw [hcongr, ihb]
      · -- b is minimal: both sides return b
        have hPb' := List.all_eq_true.1 hPb
        have hQ'b :
            ((b :: rs).all fun x => decide (b.source_id ≤ x.source_id)) = true := by
          apply List.all_eq_true.2
          intro x hx
          rcases List.mem_cons.1 hx with h' | h'
          · subst h'; simp
          · exact hPb' x (by simp [h'])
        have ihb := ih b
        rw [List.find?_cons, hQ'b] at ihb
        exact ihb

theorem minScanAux_some : ∀ (l : List Request) (b : Request) (temp : List Request),
    (minScanAux l (some b) b.source_id temp).1 = some (runMin b l) := by
  intro l
  induction l with
  | nil => intro b temp; simp [minScanAux, runMin]
  | cons r rs ih =>
    intro b temp
    by_cases hc : r.source_id < b.source_id
    · simp only [minScanAux, if_pos hc, runMin, if_pos hc]
      exact ih r _
    · simp only [minScanAux, if_neg hc, runMin, if_neg hc]
      exact ih b _

theorem minScanAux_perm :
    ∀ (l : List Request) (best : Option Request) (bs : ℤ) (temp : List Request),
    (temp ++ best.toList ++ l).Perm
      ((minScanAux l best bs temp).2 ++ (minScanAux l best bs temp).1.toList) := by
  intro l
  induction l with
  | nil =>
    intro best bs temp
    simp [minScanAux]
  | cons r rs ih =>
    intro best bs temp
    by_cases hc : r.source_id < bs
    · simp only [minScanAux, if_pos hc]
      refine List.Perm.trans ?_ (ih (some r) r.source_id (temp ++ best.toList))
      simp [List.append_assoc]
    · simp only [minScanAux, if_neg hc]
      refine List.Perm.trans ?_ (ih best bs (temp ++ [r]))
      have h1 : (temp ++ [r]) ++ best.toList ++ rs
          = temp ++ ([r] ++ (best.toList ++ rs)) := by simp
      have h2 : temp ++ best.toList ++ r :: rs
          = temp ++ (best.toList ++ ([r] ++ rs)) := by simp
      rw [h1, h2]
      apply List.Perm.append_left
      rw [← List.append_assoc, ← List.append_assoc]
      exact List.Perm.append_right _ List.perm_append_comm

theorem minPhase_perm (l : List Request) :
    l.Perm ((minPhase l).2.1 ++ (minPhase l).1.toList) := by
  by_cases h : l.isEmpty
  · rw [List.isEmpty_iff] at h
    subst h
    simp [minPhase]
  · unfold minPhase
    rw [if_neg h]
    have hp := minScanAux_perm l none INT_MAX []
    rcases hm : minScanAux l none INT_MAX [] with ⟨res, out⟩
    rw [hm] at hp
    simp at hp
    cases res <;> simpa using hp

theorem minPhase_eq (hd : Request) (tl : List Request)
    (h : ∀ r ∈ hd :: tl, r.source_id < INT_MAX) :
    ∃ out, minPhase (hd :: tl)
      = (some (runMin hd tl), out, (runMin hd tl).source_id) := by
  have hhd : hd.source_id < INT_MAX := h hd (by simp)
  have h1 : minScanAux (hd :: tl) none INT_MAX []
      = minScanAux tl (some hd) hd.source_id [] := by
    simp [minScanAux, hhd]
  have h2 := minScanAux_some tl hd ([] : List Request)
  unfold minPhase
  rw [if_neg (by simp)]
  rw [h1]
  rcases hm : minScanAux tl (some hd) hd.source_id [] with ⟨res, out⟩
  rw [hm] at h2
  simp at h2
  subst h2
  exact ⟨out, rfl⟩

theorem getNextRequest_perm (l : List Request) (m : ℤ) :
    l.Perm ((getNextRequest l m).2.1 ++ (getNextRequest l m).1.toList) := by
  unfold getNextRequest
  by_cases he : l.isEmpty
  · rw [List.isEmpty_iff] at he
    subst he
    simp
  · rw [if_neg he]
    by_cases hm : m ≠ -1
    · rw [if_pos hm]
      rcases hfp : findPackScan m l with ⟨res, rest⟩
      cases res with
      | some found =>
        have := findPackScan_perm m l found (by rw [hfp])
        rw [hfp] at this
        simp only
        refine this.trans ?_
        simpa using (List.perm_append_singleton found rest).symm
      | none =>
        have hrest : rest = l := by
          have := findPackScan_none m l (by rw [hfp])
          rw [hfp] at this
          exact this
        rw [hrest]
        exact minPhase_perm l
    · rw [if_neg hm]
      exact minPhase_perm l

/-- Reformulation of the running maximum kept by the rejection scan. -/
def runMax : Request → List Request → Request
  | b, [] => b
  | b, r :: rs => runMax (if b.source_id < r.source_id then r else b) rs

theorem runMax_mem : ∀ (l : List Request) (b : Request), runMax b l ∈ b :: l := by
  intro l
  induction l with
  | nil => intro b; simp [runMax]
  | cons r rs ih =>
    intro b
    show runMax (if b.source_id < r.source_id then r else b) rs ∈ b :: r :: rs
    rcases List.mem_cons.1 (ih (if b.source_id < r.source_id then r else b)) with h | h
    · rw [h]
      by_cases hc : b.source_id < r.source_id <;> simp [hc]
    · simp [h]

theorem runMax_ge : ∀ (l : List Request) (b : Request),
    ∀ x ∈ b :: l, x.source_id ≤ (runMax b l).source_id := by
  intro l
  induction l with
  | nil => intro b x hx; simp at hx; simp [runMax, hx]
  | cons r rs ih =>
    intro b x hx
    show _ ≤ (runMax (if b.source_id < r.source_id then r else b) rs).source_id
    set b' := if b.source_id < r.source_id then r else b with hb'
    have hbb' : b.source_id ≤ b'.source_id := by
      rw [hb']; by_cases hc : b.source_id < r.source_id <;> simp [hc]; omega
    have hrb' : r.source_id ≤ b'.source_id := by
      rw [hb']; by_cases hc : b.source_id < r.source_id <;> simp [hc]; omega
    have hge : b'.source_id ≤ (runMax b' rs).source_id := ih b' b' (by simp)
    rcases List.mem_cons.1 hx with h | h
    · subst h; exact hbb'.trans hge
    · rcases List.mem_cons.1 h with h' | h'
      · subst h'; exact hrb'.trans hge
      · exact ih b' x (by simp [h'])

theorem rejectScanAux_some : ∀ (l : List Request) (b : Request) (temp : List Request),
    (rejectScanAux l (some b) b.source_id temp).1 = some (runMax b l) := by
  intro l
  induction l with
  | nil => intro b temp; simp [rejectScanAux, runMax]
  | cons r rs ih =>
    intro b temp
    by_cases hc : b.source_id < r.source_id
    · simp only [rejectScanAux, if_pos hc, runMax, if_pos hc]
      exact ih r _
    · simp only [rejectScanAux, if_neg hc, runMax, if_neg hc]
      exact ih b _

theorem rejectScanAux_perm :
    ∀ (l : List Request) (worst : Option Request) (ws : ℤ) (temp : List Request),
    (temp ++ worst.toList ++ l).Perm
      ((rejectScanAux l worst ws temp).2 ++ (rejectScanAux l worst ws temp).1.toList) := by
  intro l
  induction l with
  | nil =>
    intro worst ws temp
    simp [rejectScanAux]
  | cons r rs ih =>
    intro worst ws temp
    by_cases hc : ws < r.source_id
    · simp only [rejectScanAux, if_pos hc]
      refine List.Perm.trans ?_ (ih (some r) r.source_id (temp ++ worst.toList))
      simp [List.append_assoc]
    · simp only [rejectScanAux, if_neg hc]
      refine List.Perm.trans ?_ (ih worst ws (temp ++ [r]))
      have h1 : (temp ++ [r]) ++ worst.toList ++ rs
          = temp ++ ([r] ++ (worst.toList ++ rs)) := by simp
      have h2 : temp ++ worst.toList ++ r :: rs
          = temp ++ (worst.toList ++ ([r] ++ rs)) := by simp
      rw [h1, h2]
      apply List.Perm.append_left
      rw [← List.append_assoc, ← List.append_assoc]
      exact List.Perm.append_right _ List.perm_append_comm

theorem findRequestToReject_fst (hd : Request) (tl : List Request)
    (hhd : 0 ≤ hd.source_id) :
    (findRequestToReject (hd :: tl)).1 = some (runMax hd tl) := by
  unfold findRequestToReject
  rw [if_neg (by simp)]
  have h1 : rejectScanAux (hd :: tl) none (-1) []
      = rejectScanAux tl (some hd) hd.source_id [] := by
    have hc : (-1 : ℤ) < hd.source_id := by omega
    simp [rejectScanAux, hc]
  rw [h1]
  exact rejectScanAux_some tl hd []

theorem findRequestToReject_perm (l : List Request) :
    l.Perm ((findRequestToReject l).2 ++ (findRequestToReject l).1.toList) := by
  unfold findRequestToReject
  by_cases he : l.isEmpty
  · rw [List.isEmpty_iff] at he
    subst he
    simp
  · rw [if_neg he]
    simpa using rejectScanAux_perm l none (-1) []

/-- If the first component of `getFreeDevice` is `none` the cursor is
returned unchanged. -/
theorem getFreeDevice_none_snd (n : ℕ) (lu : ℤ) (devs : List (Option Request))
    (h : (getFreeDevice n lu devs).1 = none) :
    getFreeDevice n lu devs = (none, lu) := by
  unfold getFreeDevice at h ⊢
  by_cases he : devs.isEmpty
  · simp [he]
  · simp only [if_neg he] at h ⊢
    rcases hs : scanFree devs n (((lu + 1).tmod (n : ℤ)).toNat) 0 n with _ | idx
    · simp [hs]
    · rw [hs] at h
      simp at h

/-! ### Claims about the buffer operations -/

/-- C1: `Buffer::getNextRequest` returns the same request and leaves the
serving-source marker with the same value as spec §4.5's `selectNext`
discipline: marker set and a pending request of the marked source
present — return it, marker unchanged; otherwise clear the marker,
return the request with the smallest source id (ties to the entry first
in buffer order) and set the marker to its source id; empty buffer —
return none and clear the marker.  (Source ids of real requests lie in
`[0, 3)`, far below `INT_MAX`.) -/
theorem getNextRequest_eq_selectNextSpec (l : List Request) (m : ℤ)
    (h : ∀ r ∈ l, r.source_id < INT_MAX) :
    ((getNextRequest l m).1, (getNextRequest l m).2.2) = selectNextSpec l m := by
  cases l with
  | nil => simp [getNextRequest, selectNextSpec]
  | cons hd tl =>
    have hne : ((hd :: tl).isEmpty = true) = False := by simp
    have hminPick := runMin_find? tl hd
    by_cases hm : m ≠ -1
    · rcases hfp : findPackScan m (hd :: tl) with ⟨res, rest⟩
      have hfind : (hd :: tl).find? (fun r => decide (r.source_id = m)) = res := by
        rw [← findPackScan_fst, hfp]
      cases res with
      | some found =>
        have hcode : getNextRequest (hd :: tl) m = (some found, rest, m) := by
          unfold getNextRequest
          rw [eq_false_intro (by simp : ¬ (hd :: tl).isEmpty = true)] at *
          simp only [Bool.false_eq_true, if_false, if_pos hm, hfp]
          simp
        have hspec : selectNextSpec (hd :: tl) m = (some found, m) := by
          unfold selectNextSpec
          simp only [if_pos hm, hfind]
          simp
        rw [hcode, hspec]
      | none =>
        have hrest : rest = hd :: tl := by
          have h0 := findPackScan_none m (hd :: tl) (by rw [hfp])
          rw [hfp] at h0
          exact h0
        subst hrest
        rcases minPhase_eq hd tl h with ⟨out, hmp⟩
        have hcode : getNextRequest (hd :: tl) m
            = (some (runMin hd tl), out, (runMin hd tl).source_id) := by
          unfold getNextRequest
          simp only [if_pos hm, hfp]
          simp [hmp]
        have hspec : selectNextSpec (hd :: tl) m
            = (some (runMin hd tl), (runMin hd tl).source_id) := by
          unfold selectNextSpec
          simp only [if_pos hm, hfind, hminPick]
          simp
        rw [hcode, hspec]
    · rcases minPhase_eq hd tl h with ⟨out, hmp⟩
      have hcode : getNextRequest (hd :: tl) m
          = (some (runMin hd tl), out, (runMin hd tl).source_id) := by
        unfold getNextRequest
        simp only [if_neg hm]
        simp [hmp]
      have hspec : selectNextSpec (hd :: tl) m
          = (some (runMin hd tl), (runMin hd tl).source_id) := by
        unfold selectNextSpec
        simp only [if_neg hm, hminPick]
        simp
      rw [hcode, hspec]

/-- Witness for C1 at the spec §8 vector: no marker, buffer with source
ids `{2, 0, 1}` — the source-0 request is selected and becomes the
marker. -/
theorem getNextRequest_eq_selectNextSpec_instance :
    (∀ r ∈ [(⟨2, 1, 0, 0, 0, 0⟩ : Request), ⟨0, 1, 0, 0, 0, 1⟩, ⟨1, 1, 0, 0, 0, 2⟩],
        r.source_id < INT_MAX) ∧
    ((getNextRequest [(⟨2, 1, 0, 0, 0, 0⟩ : Request), ⟨0, 1, 0, 0, 0, 1⟩,
        ⟨1, 1, 0, 0, 0, 2⟩] (-1)).1,
      (getNextRequest [(⟨2, 1, 0, 0, 0, 0⟩ : Request), ⟨0, 1, 0, 0, 0, 1⟩,
        ⟨1, 1, 0, 0, 0, 2⟩] (-1)).2.2) = selectNextSpec
        [(⟨2, 1, 0, 0, 0, 0⟩ : Request), ⟨0, 1, 0, 0, 0, 1⟩, ⟨1, 1, 0, 0, 0, 2⟩] (-1) ∧
    (getNextRequest [(⟨2, 1, 0, 0, 0, 0⟩ : Request), ⟨0, 1, 0, 0, 0, 1⟩,
        ⟨1, 1, 0, 0, 0, 2⟩] (-1)).1 = some ⟨0, 1, 0, 0, 0, 1⟩ :=
  ⟨by decide, getNextRequest_eq_selectNextSpec _ _ (by decide), by decide⟩

/-- C2: on every non-empty buffer of real requests (source ids are
non-negative), `Buffer::findRequestToReject` returns a pending request
whose source id is maximal; on the concrete buffer with source ids
`{1, 2, 0}` it returns the source-2 request. -/
theorem findRequestToReject_max_source :
    (∀ l : List Request, l ≠ [] → (∀ r ∈ l, 0 ≤ r.source_id) →
      ∃ r, (findRequestToReject l).1 = some r ∧ r ∈ l ∧
        ∀ x ∈ l, x.source_id ≤ r.source_id) ∧
    (findRequestToReject [(⟨1, 1, 0, 0, 0, 0⟩ : Request), ⟨2, 1, 0, 0, 0, 1⟩,
      ⟨0, 1, 0, 0, 0, 2⟩]).1 = some ⟨2, 1, 0, 0, 0, 1⟩ := by
  constructor
  · intro l hne hpos
    cases l with
    | nil => exact absurd rfl hne
    | cons hd tl =>
      refine ⟨runMax hd tl, findRequestToReject_fst hd tl (hpos hd (by simp)), ?_, ?_⟩
      · exact runMax_mem tl hd
      · exact runMax_ge tl hd
  · decide

/-- Witness for C2: the general part applied to the concrete `{1, 2, 0}`
buffer. -/
theorem findRequestToReject_max_source_instance :
    ∃ r, (findRequestToReject [(⟨1, 1, 0, 0, 0, 0⟩ : Request), ⟨2, 1, 0, 0, 0, 1⟩,
      ⟨0, 1, 0, 0, 0, 2⟩]).1 = some r ∧
      r ∈ [(⟨1, 1, 0, 0, 0, 0⟩ : Request), ⟨2, 1, 0, 0, 0, 1⟩, ⟨0, 1, 0, 0, 0, 2⟩] ∧
      ∀ x ∈ [(⟨1, 1, 0, 0, 0, 0⟩ : Request), ⟨2, 1, 0, 0, 0, 1⟩, ⟨0, 1, 0, 0, 0, 2⟩],
        x.source_id ≤ r.source_id :=
  findRequestToReject_max_source.1 _ (by decide) (by decide)

/-- C8 counterexample: `getNextRequest` does not leave the buffer's
contents unchanged — on the one-element buffer it returns the request
and leaves the buffer empty. -/
theorem getNextRequest_buffer_changed_counterexample :
    (getNextRequest [(⟨0, 1, 0, 0, 0, 0⟩ : Request)] (-1)).1
        = some (⟨0, 1, 0, 0, 0, 0⟩ : Request) ∧
    (getNextRequest [(⟨0, 1, 0, 0, 0, 0⟩ : Request)] (-1)).2.1
        ≠ [(⟨0, 1, 0, 0, 0, 0⟩ : Request)] := by
  constructor
  · decide
  · decide

/-- C8 (amended): `getNextRequest` itself removes the returned request
from the buffer (the remaining entries are a permutation of the rest);
the engine's subsequent `removeRequest` call finds no matching entry (no
two live requests share an allocation tag, so the buffer has no
duplicates) and is a no-op — the pair of calls removes the request
exactly once. -/
theorem getNextRequest_removes_returned (l : List Request) (m m' : ℤ) (r : Request)
    (out : List Request) (h : getNextRequest l m = (some r, out, m'))
    (hnd : l.Nodup) :
    l.Perm (r :: out) ∧ r ∉ out ∧ removeRequest r out = out := by
  have hp := getNextRequest_perm l m
  rw [h] at hp
  have hp' : l.Perm (r :: out) := by
    refine hp.trans ?_
    simp
  have hnd' := hp'.nodup hnd
  have hr : r ∉ out := (List.nodup_cons.1 hnd').1
  refine ⟨hp', hr, ?_⟩
  apply List.filter_eq_self.2
  intro a ha
  simp only [ne_eq, decide_eq_true_eq]
  intro har
  exact hr (har ▸ ha)

/-- Witness for C8's amended claim on a two-element buffer: the source-0
request is selected, removed, and `removeRequest` is a no-op. -/
theorem getNextRequest_removes_returned_instance :
    [(⟨1, 1, 0, 0, 0, 0⟩ : Request), ⟨0, 1, 0, 0, 0, 1⟩].Perm
        ((⟨0, 1, 0, 0, 0, 1⟩ : Request) :: [⟨1, 1, 0, 0, 0, 0⟩]) ∧
    (⟨0, 1, 0, 0, 0, 1⟩ : Request) ∉ [(⟨1, 1, 0, 0, 0, 0⟩ : Request)] ∧
    removeRequest ⟨0, 1, 0, 0, 0, 1⟩ [(⟨1, 1, 0, 0, 0, 0⟩ : Request)]
        = [(⟨1, 1, 0, 0, 0, 0⟩ : Request)] :=
  getNextRequest_removes_returned _ (-1) 0 _ _ (by decide) (by decide)

/-- A state whose buffer reports full while `findRequestToReject` finds
no candidate (its scan starts at `worst_source = -1`, so requests with
negative source ids are invisible to it), and whose devices are both
busy. -/
def fullNoCandidateState : SimState :=
  { initState (fun _ _ => 2) with
      devices := [some dummyReq, some (⟨0, 0, 0, 0, 0, 1⟩ : Request)],
      buffer := [⟨-2, 1, 0, 0, 0, 2⟩, ⟨-2, 2, 0, 0, 0, 3⟩, ⟨-2, 3, 0, 0, 0, 4⟩] }

/-- C9 counterexample: with the buffer full, no eviction candidate and
no free device, `processArrival` still admits the newly arrived request
into the buffer. -/
theorem arrival_full_no_candidate_counterexample :
    isFull 3 fullNoCandidateState.buffer = true ∧
    (findRequestToReject fullNoCandidateState.buffer).1 = none ∧
    (⟨0, 1, 0, 0, 0, 0⟩ : Request)
      ∈ (processArrival (fun _ _ => 2) (fun _ _ => 2) 0 fullNoCandidateState).buffer := by
  refine ⟨by decide, by decide, by decide⟩

/-- C9 (amended): in the arrival path, when no device is free and the
buffer reports full but `findRequestToReject` returns no eviction
candidate, the newly arrived request is nevertheless admitted: the
insertion is unconditional, only the eviction bookkeeping is guarded. -/
theorem arrival_full_no_candidate_inserts (intv svc : ℕ → ℕ → ℚ) (srcId : ℤ)
    (s : SimState) (hfree : (getFreeDevice 2 s.last_used s.devices).1 = none)
    (hfull : isFull 3 s.buffer = true)
    (hno : (findRequestToReject s.buffer).1 = none) :
    (processArrival intv svc srcId s).buffer
      = (findRequestToReject s.buffer).2 ++ [arrivalRequest srcId s] ∧
    arrivalRequest srcId s ∈ (processArrival intv svc srcId s).buffer := by
  have hpair := getFreeDevice_none_snd 2 s.last_used s.devices hfree
  have hrpair : findRequestToReject s.buffer
      = (none, (findRequestToReject s.buffer).2) := by
    rw [← hno]
  have hbuf : (processArrival intv svc srcId s).buffer
      = (findRequestToReject s.buffer).2 ++ [arrivalRequest srcId s] := by
    unfold processArrival
    simp only [hpair, hfull, if_true]
    rw [hrpair]
  exact ⟨hbuf, by rw [hbuf]; simp⟩

/-! ### The round-robin device selector -/

theorem scanFree_eq_rot (devs : List (Option Request)) (n start : ℕ) :
    ∀ (k i : ℕ), scanFree devs n start i k
      = ((List.range k).map fun j => (start + i + j) % n).find?
          fun idx => (devs.getD idx (some dummyReq)).isNone := by
  intro k
  induction k with
  | zero => intro i; simp [scanFree]
  | succ k ih =>
    intro i
    rw [List.range_succ_eq_map]
    have hmap : (List.map Nat.succ (List.range k)).map (fun j => (start + i + j) % n)
        = (List.range k).map fun j => (start + (i + 1) + j) % n := by
      rw [List.map_map]
      apply List.map_congr_left
      intro a _
      have : start + i + Nat.succ a = start + (i + 1) + a := by omega
      simp [Function.comp, this]
    show (if (devs.getD ((start + i) % n) (some dummyReq)).isNone then some ((start + i) % n)
          else scanFree devs n start (i + 1) k) = _
    rw [List.map_cons, List.find?_cons, hmap]
    cases hp : (devs.getD ((start + i + 0) % n) (some dummyReq)).isNone
    · simp only [Nat.add_zero] at hp
      rw [hp]
      simp only [if_false, Bool.false_eq_true]
      exact ih (i + 1)
    · simp only [Nat.add_zero] at hp
      rw [hp]
      simp

theorem mem_rotOrder (n start j : ℕ) (hn : 0 < n) (hj : j < n) :
    j ∈ rotOrder n start := by
  unfold rotOrder
  rw [List.mem_map]
  obtain ⟨q, r, rfl, hrn⟩ : ∃ q r, start = n * q + r ∧ r < n :=
    ⟨start / n, start % n, (Nat.div_add_mod start n).symm, Nat.mod_lt _ hn⟩
  have hmod : (n * q + r) % n = r := by
    rw [Nat.mul_add_mod]
    exact Nat.mod_eq_of_lt hrn
  refine ⟨(j + n - (n * q + r) % n) % n, List.mem_range.2 (Nat.mod_lt _ hn), ?_⟩
  rw [hmod]
  by_cases hr : r ≤ j
  · have h1 : (j + n - r) % n = j - r := by
      have he : j + n - r = (j - r) + n := by omega
      rw [he, Nat.add_mod_right]
      exact Nat.mod_eq_of_lt (by omega)
    rw [h1, show n * q + r + (j - r) = j + n * q by omega]
    rw [Nat.add_mul_mod_self_left]
    exact Nat.mod_eq_of_lt hj
  · have h1 : (j + n - r) % n = j + n - r := Nat.mod_eq_of_lt (by omega)
    have h2 : n * q + r + (j + n - r) = (j + n) + n * q := by omega
    rw [h1, h2, Nat.add_mul_mod_self_left, Nat.add_mod_right]
    exact Nat.mod_eq_of_lt hj

/-- `getFreeDevice` agrees with the spec-side rotated-order scan, and
updates or preserves the cursor exactly as the spec states. -/
theorem getFreeDevice_eq_spec (devs : List (Option Request)) (lastUsed : ℤ)
    (hne : devs ≠ []) (hcur : -1 ≤ lastUsed) :
    getFreeDevice devs.length lastUsed devs
      = match selectFreeSpec devs lastUsed with
        | some j => (some j, (j : ℤ))
        | none => (none, lastUsed) := by
  have h0 : (0 : ℤ) ≤ lastUsed + 1 := by omega
  have hsel : scanFree devs devs.length
        (((lastUsed + 1) % (devs.length : ℤ)).toNat) 0 devs.length
      = selectFreeSpec devs lastUsed :=
    scanFree_eq_rot devs devs.length
      (((lastUsed + 1) % (devs.length : ℤ)).toNat) devs.length 0
  unfold getFreeDevice
  rw [if_neg (by simpa using hne)]
  rw [Int.tmod_eq_emod h0 (Int.natCast_nonneg _)]
  simp only [hsel]

/-- C5: `DeviceSelector::getFreeDevice` scans the pool starting just
after the last returned index (modulo pool size), returns the first free
device in that rotated order — `none` exactly when every device is busy
— sets the cursor to the returned index on success and leaves it
unchanged on failure; with two free devices, three consecutive calls
return device 0, then 1, then 0. -/
theorem getFreeDevice_round_robin :
    (∀ (devs : List (Option Request)) (lastUsed : ℤ), devs ≠ [] → -1 ≤ lastUsed →
      (getFreeDevice devs.length lastUsed devs).1 = selectFreeSpec devs lastUsed ∧
      (∀ j, (getFreeDevice devs.length lastUsed devs).1 = some j →
        (getFreeDevice devs.length lastUsed devs).2 = (j : ℤ)) ∧
      ((getFreeDevice devs.length lastUsed devs).1 = none →
        (getFreeDevice devs.length lastUsed devs).2 = lastUsed ∧
        ∀ o ∈ devs, o.isSome)) ∧
    (getFreeDevice 2 (-1) [none, none] = (some 0, 0) ∧
     getFreeDevice 2 0 [none, none] = (some 1, 1) ∧
     getFreeDevice 2 1 [none, none] = (some 0, 0)) := by
  constructor
  · intro devs lastUsed hne hcur
    have hlen : 0 < devs.length := List.length_pos.2 hne
    have heq := getFreeDevice_eq_spec devs lastUsed hne hcur
    rcases hsel : selectFreeSpec devs lastUsed with _ | j
    all_goals rw [hsel] at heq
    · refine ⟨by rw [heq], ?_, ?_⟩
      · intro j hj
        rw [heq] at hj
        simp at hj
      · intro _
        refine ⟨by rw [heq], ?_⟩
        intro o ho
        rcases List.mem_iff_get.1 ho with ⟨⟨j, hjlt⟩, hjo⟩
        have hjrot : j ∈ rotOrder devs.length
            (((lastUsed + 1) % (devs.length : ℤ)).toNat) :=
          mem_rotOrder _ _ _ hlen hjlt
        have hsel' : (rotOrder devs.length
            (((lastUsed + 1) % (devs.length : ℤ)).toNat)).find?
              (fun idx => (devs.getD idx (some dummyReq)).isNone) = none := hsel
        have hnone := List.find?_eq_none.1 hsel' j hjrot
        rw [List.getD_eq_getElem devs (some dummyReq) hjlt] at hnone
        have hget : devs[j] = o := hjo
        rw [hget] at hnone
        cases o
        · simp at hnone
        · simp
    · refine ⟨by rw [heq], ?_, ?_⟩
      · intro j' hj'
        rw [heq] at hj'
        simp at hj'
        subst hj'
        rw [heq]
      · intro hnone
        rw [heq] at hnone
        simp at hnone
  · refine ⟨by decide, by decide, by decide⟩

/-- Witness for C5: the general part applied to a pool with device 0
busy and device 1 free, cursor at `-1`: device 1 is selected and becomes
the cursor. -/
theorem getFreeDevice_round_robin_instance :
    (getFreeDevice ([some dummyReq, none] : List (Option Request)).length (-1)
        [some dummyReq, none]).1 = selectFreeSpec [some dummyReq, none] (-1) ∧
    (∀ j, (getFreeDevice ([some dummyReq, none] : List (Option Request)).length (-1)
        [some dummyReq, none]).1 = some j →
      (getFreeDevice ([some dummyReq, none] : List (Option Request)).length (-1)
        [some dummyReq, none]).2 = (j : ℤ)) ∧
    ((getFreeDevice ([some dummyReq, none] : List (Option Request)).length (-1)
        [some dummyReq, none]).1 = none →
      (getFreeDevice ([some dummyReq, none] : List (Option Request)).length (-1)
        [some dummyReq, none]).2 = -1 ∧
      ∀ o ∈ ([some dummyReq, none] : List (Option Request)), o.isSome) :=
  getFreeDevice_round_robin.1 [some dummyReq, none] (-1) (by decide) (by norm_num)

/-! ### Engine invariants: counting helpers -/

/-- Number of requests currently in service on a device. -/
def busyCount (s : SimState) : ℕ := s.devices.countP (·.isSome)

/-- Does event `e` announce the departure of device `d`? -/
def isDepFor (d : ℕ) (e : Event) : Bool :=
  decide (e.type = EventType.departure) && decide (e.entity_id = (d : ℤ))

/-- Number of pending departure events of device `d`. -/
def depCountFor (d : ℕ) (cal : List Event) : ℕ := cal.countP (isDepFor d)

theorem depCountFor_append (d : ℕ) (cal1 cal2 : List Event) :
    depCountFor d (cal1 ++ cal2) = depCountFor d cal1 + depCountFor d cal2 :=
  List.countP_append _ _ _

theorem depCountFor_erase (d : ℕ) (e : Event) (cal : List Event) (he : e ∈ cal) :
    depCountFor d cal
      = depCountFor d (cal.erase e) + (if isDepFor d e then 1 else 0) := by
  have hp := List.perm_cons_erase he
  unfold depCountFor
  rw [hp.countP_eq, List.countP_cons]

theorem removeRequest_of_tag_not_mem (r : Request) (l : List Request)
    (h : r.tag ∉ l.map Request.tag) : removeRequest r l = l := by
  apply List.filter_eq_self.2
  intro a ha
  simp only [ne_eq, decide_eq_true_eq]
  intro har
  exact h (by rw [← har]; exact List.mem_map_of_mem _ ha)

/-- The two default values used for out-of-range reads of the device
list agree on in-range indices. -/
theorem getD_isNone_iff (devs : List (Option Request)) (j : ℕ) (hj : j < devs.length) :
    (devs.getD j (some dummyReq)).isNone = true ↔ devs.getD j none = none := by
  induction devs generalizing j with
  | nil => simp at hj
  | cons a l ih =>
    cases j with
    | zero => cases a <;> simp
    | succ j' =>
      simp only [List.getD_cons_succ]
      exact ih j' (by simpa using hj)

/-- On a pool of the configured size, a successful selection returns a
valid index of a free device and moves the cursor there. -/
theorem getFreeDevice_some_spec (devs : List (Option Request)) (lu : ℤ) (d : ℕ)
    (lu' : ℤ) (hdev : devs.length = 2) (hcur : -1 ≤ lu)
    (h : getFreeDevice 2 lu devs = (some d, lu')) :
    d < 2 ∧ devs.getD d none = none ∧ lu' = (d : ℤ) := by
  have hne : devs ≠ [] := by
    intro hcon
    rw [hcon] at hdev
    exact absurd hdev (by decide)
  have heq := getFreeDevice_eq_spec devs lu hne hcur
  rw [hdev] at heq
  rw [heq] at h
  rcases hsel : selectFreeSpec devs lu with _ | j
  all_goals rw [hsel] at h
  · simp at h
  · rw [Prod.mk.injEq] at h
    obtain ⟨hjd, hlu⟩ := h
    injection hjd with hjd
    rw [hjd] at hsel hlu
    have hsel' : (rotOrder devs.length (((lu + 1) % (devs.length : ℤ)).toNat)).find?
        (fun idx => (devs.getD idx (some dummyReq)).isNone) = some d := hsel
    have hmem := List.mem_of_find?_eq_some hsel'
    have hpred := List.find?_some hsel'
    unfold rotOrder at hmem
    rw [List.mem_map] at hmem
    obtain ⟨i, _, hij⟩ := hmem
    have hlt : d < 2 := by
      rw [← hij, ← hdev]
      exact Nat.mod_lt _ (by omega)
    exact ⟨hlt, (getD_isNone_iff devs d (by omega)).1 hpred, hlu.symm⟩

/-- If some device of the configured pool is free, selection succeeds. -/
theorem getFreeDevice_total (devs : List (Option Request)) (lu : ℤ) (j : ℕ)
    (hdev : devs.length = 2) (hcur : -1 ≤ lu) (hj : j < 2)
    (hfree : devs.getD j none = none) :
    ∃ d : ℕ, getFreeDevice 2 lu devs = (some d, (d : ℤ)) ∧ d < 2 ∧
      devs.getD d none = none := by
  have hne : devs ≠ [] := by
    intro hcon
    rw [hcon] at hdev
    exact absurd hdev (by decide)
  have heq := getFreeDevice_eq_spec devs lu hne hcur
  rw [hdev] at heq
  rcases hsel : selectFreeSpec devs lu with _ | d
  · exfalso
    have hjrot : j ∈ rotOrder devs.length (((lu + 1) % (devs.length : ℤ)).toNat) :=
      mem_rotOrder _ _ _ (by omega) (by omega)
    have hsel' : (rotOrder devs.length (((lu + 1) % (devs.length : ℤ)).toNat)).find?
        (fun idx => (devs.getD idx (some dummyReq)).isNone) = none := hsel
    have hnone := List.find?_eq_none.1 hsel' j hjrot
    exact hnone ((getD_isNone_iff devs j (by omega)).2 hfree)
  · have h : getFreeDevice 2 lu devs = (some d, (d : ℤ)) := by
      rw [heq, hsel]
    obtain ⟨hlt, hfr, _⟩ := getFreeDevice_some_spec devs lu d _ hdev hcur h
    exact ⟨d, h, hlt, hfr⟩

theorem getD_set_self {α : Type} : ∀ (l : List α) (i : ℕ) (a dflt : α),
    i < l.length → (l.set i a).getD i dflt = a := by
  intro l
  induction l with
  | nil => intro i a dflt h; simp at h
  | cons x xs ih =>
    intro i a dflt h
    cases i with
    | zero => rfl
    | succ j =>
      simp only [List.set_cons_succ, List.getD_cons_succ]
      exact ih j a dflt (by simpa using h)

theorem getD_set_ne {α : Type} : ∀ (l : List α) (i j : ℕ) (a dflt : α),
    i ≠ j → (l.set i a).getD j dflt = l.getD j dflt := by
  intro l
  induction l with
  | nil => intro i j a dflt _; simp
  | cons x xs ih =>
    intro i j a dflt hij
    cases i with
    | zero =>
      cases j with
      | zero => exact absurd rfl hij
      | succ j' => rfl
    | succ i' =>
      cases j with
      | zero => rfl
      | succ j' =>
        simp only [List.set_cons_succ, List.getD_cons_succ]
        exact ih i' j' a dflt (by omega)

theorem countP_set_some_of_free : ∀ (devs : List (Option Request)) (d : ℕ) (r : Request),
    devs.getD d none = none → d < devs.length →
    (devs.set d (some r)).countP (·.isSome) = devs.countP (·.isSome) + 1 := by
  intro devs
  induction devs with
  | nil => intro d r _ h; simp at h
  | cons x xs ih =>
    intro d r hfree hd
    cases d with
    | zero =>
      have hx : x = none := hfree
      subst hx
      simp [List.countP_cons]
    | succ d' =>
      simp only [List.set_cons_succ, List.countP_cons]
      rw [ih d' r hfree (by simpa using hd)]
      omega

theorem countP_set_none_of_busy : ∀ (devs : List (Option Request)) (d : ℕ) (fr : Request),
    devs.getD d none = some fr →
    devs.countP (·.isSome) = (devs.set d none).countP (·.isSome) + 1 := by
  intro devs
  induction devs with
  | nil => intro d fr h; simp at h
  | cons x xs ih =>
    intro d fr hbusy
    cases d with
    | zero =>
      have hx : x = some fr := hbusy
      subst hx
      simp [List.countP_cons]
    | succ d' =>
      simp only [List.set_cons_succ, List.countP_cons]
      rw [ih d' fr hbusy]
      omega

theorem depCountFor_singleton (d : ℕ) (e : Event) :
    depCountFor d [e] = if isDepFor d e then 1 else 0 := by
  simp [depCountFor, List.countP_cons]

theorem isDepFor_arrival (d : ℕ) (e : Event) (h : e.type = EventType.arrival) :
    isDepFor d e = false := by
  simp [isDepFor, h]

theorem depCountFor_singleton_arrival (d : ℕ) (e : Event)
    (h : e.type = EventType.arrival) : depCountFor d [e] = 0 := by
  rw [depCountFor_singleton, isDepFor_arrival _ _ h]
  rfl

theorem depCountFor_singleton_dep_self (d : ℕ) (e : Event)
    (h : e.type = EventType.departure) (he : e.entity_id = (d : ℤ)) :
    depCountFor d [e] = 1 := by
  rw [depCountFor_singleton]
  have : isDepFor d e = true := by simp [isDepFor, h, he]
  rw [this]
  rfl

theorem depCountFor_singleton_dep_other (d : ℕ) (e : Event)
    (he : e.entity_id ≠ (d : ℤ)) : depCountFor d [e] = 0 := by
  rw [depCountFor_singleton]
  have : isDepFor d e = false := by simp [isDepFor, he]
  rw [this]
  rfl

/-- Structural invariant of the simulation engine: device-pool size,
event-id ranges, the correspondence between pending departure events and
busy devices, buffer source-id ranges, freshness and distinctness of the
ghost allocation tags, conservation of requests, the capacity bound, and
the cursor range. -/
structure InvA (s : SimState) : Prop where
  hdev : s.devices.length = 2
  hids : ∀ e ∈ s.calendar,
    (e.type = EventType.arrival → 0 ≤ e.entity_id ∧ e.entity_id < 3) ∧
    (e.type = EventType.departure → 0 ≤ e.entity_id ∧ e.entity_id < 2)
  hcorr : ∀ d : ℕ, d < 2 →
    depCountFor d s.calendar = if (s.devices.getD d none).isSome then 1 else 0
  hbufid : ∀ r ∈ s.buffer, 0 ≤ r.source_id ∧ r.source_id < 3
  htagN : (s.buffer.map Request.tag).Nodup
  htagB : ∀ r ∈ s.buffer, r.tag < s.alloc
  hcons : s.requests_generated
    = s.requests_served + s.requests_rejected + s.buffer.length + busyCount s
  hsize : s.buffer.length ≤ 3
  hcur : -1 ≤ s.last_used ∧ s.last_used < 2

theorem InvA_processArrival (intv svc : ℕ → ℕ → ℚ) (srcId : ℤ) (s : SimState)
    (inv : InvA s) (hsrc : 0 ≤ srcId ∧ srcId < 3) :
    InvA (processArrival intv svc srcId s) := by
  obtain ⟨hdev, hids, hcorr, hbufid, htagN, htagB, hcons, hsize, hcur⟩ := inv
  have harrEv : (nextArrivalEvent intv srcId s).type = EventType.arrival := rfl
  rcases hg : getFreeDevice 2 s.last_used s.devices with ⟨og, lu⟩
  cases og with
  | some d =>
    obtain ⟨hd2, hfree, hlu⟩ := getFreeDevice_some_spec s.devices s.last_used d lu
      hdev hcur.1 hg
    subst hlu
    have hres : processArrival intv svc srcId s = { s with
        requests_generated := s.requests_generated + 1,
        source_requests := bump s.source_requests srcId.toNat,
        intv_count := bump s.intv_count srcId.toNat,
        alloc := s.alloc + 1,
        devices := s.devices.set d
          (some { arrivalRequest srcId s with start_service_time := s.current_time }),
        last_used := (d : ℤ),
        svc_count := bump s.svc_count d,
        calendar := (s.calendar ++ [nextArrivalEvent intv srcId s]) ++
          [(⟨s.current_time + svc d (s.svc_count.getD d 0), .departure, (d : ℤ),
             some { arrivalRequest srcId s with
                      start_service_time := s.current_time }⟩ : Event)] } := by
      unfold processArrival
      rw [hg]
    rw [hres]
    constructor
    case hdev => simpa using hdev
    case hids =>
      intro e he
      simp only [List.mem_append, List.mem_singleton] at he
      rcases he with (he | rfl) | rfl
      · exact hids e he
      · refine ⟨fun _ => hsrc, fun hc => absurd hc (by simp [nextArrivalEvent])⟩
      · refine ⟨fun hc => absurd hc (by simp), fun _ => ⟨?_, ?_⟩⟩
        · show (0 : ℤ) ≤ (d : ℤ)
          omega
        · show (d : ℤ) < 2
          omega
    case hcorr =>
      intro d' hd'
      show depCountFor d' ((s.calendar ++ [nextArrivalEvent intv srcId s]) ++ _) = _
      rw [depCountFor_append, depCountFor_append,
        depCountFor_singleton_arrival _ _ harrEv]
      by_cases hdd : d' = d
      · subst hdd
        rw [depCountFor_singleton_dep_self _ _ rfl rfl]
        have h2 := hcorr d' hd'
        rw [hfree] at h2
        simp only [Option.isSome_none, Bool.false_eq_true, if_false] at h2
        have h3 : ((s.devices.set d' (some { arrivalRequest srcId s with
            start_service_time := s.current_time })).getD d' none).isSome = true := by
          rw [getD_set_self _ _ _ _ (by omega)]
          rfl
        rw [h3, h2]
        simp
      · rw [depCountFor_singleton_dep_other d' _ (by show (d : ℤ) ≠ (d' : ℤ); omega)]
        have h3 : (s.devices.set d (some { arrivalRequest srcId s with
            start_service_time := s.current_time })).getD d' none
            = s.devices.getD d' none := getD_set_ne _ _ _ _ _ (fun hc => hdd hc.symm)
        show _ + 0 + 0 = if ((s.devices.set d (some _)).getD d' none).isSome then 1 else 0
        rw [h3]
        have h2 := hcorr d' hd'
        omega
    case hbufid => exact hbufid
    case htagN => exact htagN
    case htagB => exact fun r hr => Nat.lt_succ_of_lt (htagB r hr)
    case hcons =>
      show s.requests_generated + 1
        = s.requests_served + s.requests_rejected + s.buffer.length +
          (s.devices.set d (some { arrivalRequest srcId s with
            start_service_time := s.current_time })).countP (·.isSome)
      rw [countP_set_some_of_free s.devices d _ hfree (by omega)]
      unfold busyCount at hcons
      omega
    case hsize => exact hsize
    case hcur =>
      refine ⟨?_, ?_⟩
      · show (-1 : ℤ) ≤ (d : ℤ)
        omega
      · show (d : ℤ) < 2
        omega
  | none =>
    have hpair := getFreeDevice_none_snd 2 s.last_used s.devices (by rw [hg])
    rw [hg] at hpair
    have hlu : lu = s.last_used := by
      injection hpair with h1 h2
    subst hlu
    by_cases hfull : isFull 3 s.buffer = true
    · -- full buffer: evict the candidate, then insert
      have hlen3 : s.buffer.length = 3 := by
        simp only [isFull, decide_eq_true_eq] at hfull
        omega
      obtain ⟨b0, bs, hbuf⟩ : ∃ b0 bs, s.buffer = b0 :: bs := by
        cases hb : s.buffer with
        | nil => rw [hb] at hlen3; simp at hlen3
        | cons b0 bs => exact ⟨b0, bs, rfl⟩
      rcases hfr : findRequestToReject s.buffer with ⟨orej, buf⟩
      have horej : orej = some (runMax b0 bs) := by
        have h1 : (findRequestToReject s.buffer).1 = some (runMax b0 bs) := by
          rw [hbuf]
          exact findRequestToReject_fst b0 bs (hbufid b0 (by rw [hbuf]; simp)).1
        rw [hfr] at h1
        exact h1
      subst horej
      have hperm : s.buffer.Perm (buf ++ [runMax b0 bs]) := by
        have h1 := findRequestToReject_perm s.buffer
        rw [hfr] at h1
        simpa using h1
      have hpermc : s.buffer.Perm (runMax b0 bs :: buf) :=
        hperm.trans (List.perm_append_singleton _ _)
      have hsub : ∀ x ∈ buf, x ∈ s.buffer := by
        intro x hx
        exact hpermc.symm.subset (by simp [hx])
      have hrejmem : runMax b0 bs ∈ s.buffer := hpermc.symm.subset (by simp)
      have hlen2 : buf.length + 1 = s.buffer.length := by
        have := hpermc.length_eq
        simp at this
        omega
      have htagsN : ((runMax b0 bs :: buf).map Request.tag).Nodup :=
        (hpermc.map Request.tag).nodup htagN
      have hremove : removeRequest (runMax b0 bs) buf = buf := by
        apply removeRequest_of_tag_not_mem
        have h1 : ((runMax b0 bs).tag :: buf.map Request.tag).Nodup := by
          rw [← List.map_cons]
          exact htagsN
        exact (List.nodup_cons.1 h1).1
      have hres : processArrival intv svc srcId s = { s with
          requests_generated := s.requests_generated + 1,
          source_requests := bump s.source_requests srcId.toNat,
          intv_count := bump s.intv_count srcId.toNat,
          alloc := s.alloc + 1,
          last_used := s.last_used,
          source_rejections := bump s.source_rejections (runMax b0 bs).source_id.toNat,
          requests_rejected := s.requests_rejected + 1,
          buffer := removeRequest (runMax b0 bs) buf ++ [arrivalRequest srcId s],
          calendar := s.calendar ++ [nextArrivalEvent intv srcId s] } := by
        unfold processArrival
        simp only [hg]
        rw [if_pos hfull, hfr]
      rw [hres, hremove]
      refine ⟨?hdev, ?hids, ?hcorr, ?hbufid, ?htagN, ?htagB, ?hcons, ?hsize, ?hcur⟩
      case hdev => exact hdev
      case hids =>
        intro e he
        simp only [List.mem_append, List.mem_singleton] at he
        rcases he with he | rfl
        · exact hids e he
        · exact ⟨fun _ => hsrc, fun hc => absurd hc (by simp [nextArrivalEvent])⟩
      case hcorr =>
        intro d' hd'
        show depCountFor d' (s.calendar ++ [nextArrivalEvent intv srcId s])
          = if (s.devices.getD d' none).isSome then 1 else 0
        rw [depCountFor_append, depCountFor_singleton_arrival _ _ harrEv]
        have h2 := hcorr d' hd'
        omega
      case hbufid =>
        intro r hr
        simp only [List.mem_append, List.mem_singleton] at hr
        rcases hr with hr | rfl
        · exact hbufid r (hsub r hr)
        · exact hsrc
      case htagN =>
        show ((buf ++ [arrivalRequest srcId s]).map Request.tag).Nodup
        rw [List.map_append]
        rw [List.nodup_append]
        refine ⟨(List.nodup_cons.1 (by simpa using htagsN)).2, by simp, ?_⟩
        intro t ht
        simp only [List.map_cons, List.map_nil, List.mem_singleton]
        intro hc
        rw [hc] at ht
        simp only [arrivalRequest, List.mem_map] at ht
        obtain ⟨x, hx, hxt⟩ := ht
        exact absurd hxt (Nat.ne_of_lt (htagB x (hsub x hx)))
      case htagB =>
        intro r hr
        simp only [List.mem_append, List.mem_singleton] at hr
        rcases hr with hr | rfl
        · exact Nat.lt_succ_of_lt (htagB r (hsub r hr))
        · exact Nat.lt_succ_self _
      case hcons =>
        show s.requests_generated + 1 = _ + (s.requests_rejected + 1) +
          (buf ++ [arrivalRequest srcId s]).length + busyCount _
        rw [List.length_append]
        unfold busyCount at hcons ⊢
        simp only [List.length_singleton]
        omega
      case hsize =>
        show (buf ++ [arrivalRequest srcId s]).length ≤ 3
        rw [List.length_append]
        simp only [List.length_singleton]
        omega
      case hcur => exact hcur
    · -- buffer not full: plain insertion
      have hnf : isFull 3 s.buffer = false := by
        cases hq : isFull 3 s.buffer
        · rfl
        · exact absurd hq hfull
      have hlen : s.buffer.length ≤ 2 := by
        simp only [isFull, decide_eq_false_iff_not] at hnf
        omega
      have hres : processArrival intv svc srcId s = { s with
          requests_generated := s.requests_generated + 1,
          source_requests := bump s.source_requests srcId.toNat,
          intv_count := bump s.intv_count srcId.toNat,
          alloc := s.alloc + 1,
          last_used := s.last_used,
          buffer := s.buffer ++ [arrivalRequest srcId s],
          calendar := s.calendar ++ [nextArrivalEvent intv srcId s] } := by
        unfold processArrival
        simp only [hg, hnf, Bool.false_eq_true, if_false]
      rw [hres]
      refine ⟨?hdev, ?hids, ?hcorr, ?hbufid, ?htagN, ?htagB, ?hcons, ?hsize, ?hcur⟩
      case hdev => exact hdev
      case hids =>
        intro e he
        simp only [List.mem_append, List.mem_singleton] at he
        rcases he with he | rfl
        · exact hids e he
        · exact ⟨fun _ => hsrc, fun hc => absurd hc (by simp [nextArrivalEvent])⟩
      case hcorr =>
        intro d' hd'
        show depCountFor d' (s.calendar ++ [nextArrivalEvent intv srcId s])
          = if (s.devices.getD d' none).isSome then 1 else 0
        rw [depCountFor_append, depCountFor_singleton_arrival _ _ harrEv]
        have h2 := hcorr d' hd'
        omega
      case hbufid =>
        intro r hr
        simp only [List.mem_append, List.mem_singleton] at hr
        rcases hr with hr | rfl
        · exact hbufid r hr
        · exact hsrc
      case htagN =>
        show ((s.buffer ++ [arrivalRequest srcId s]).map Request.tag).Nodup
        rw [List.map_append, List.nodup_append]
        refine ⟨htagN, by simp, ?_⟩
        intro t ht
        simp only [List.map_cons, List.map_nil, List.mem_singleton]
        intro hc
        rw [hc] at ht
        simp only [arrivalRequest, List.mem_map] at ht
        obtain ⟨x, hx, hxt⟩ := ht
        exact absurd hxt (Nat.ne_of_lt (htagB x hx))
      case htagB =>
        intro r hr
        simp only [List.mem_append, List.mem_singleton] at hr
        rcases hr with hr | rfl
        · exact Nat.lt_succ_of_lt (htagB r hr)
        · exact Nat.lt_succ_self _
      case hcons =>
        show s.requests_generated + 1 = _ + _ +
          (s.buffer ++ [arrivalRequest srcId s]).length + busyCount _
        rw [List.length_append]
        unfold busyCount at hcons ⊢
        simp only [List.length_singleton]
        omega
      case hsize =>
        show (s.buffer ++ [arrivalRequest srcId s]).length ≤ 3
        rw [List.length_append]
        simp only [List.length_singleton]
        omega
      case hcur => exact hcur

theorem InvA_departurePull (svc : ℕ → ℕ → ℚ) (s : SimState) (inv : InvA s)
    (hfree : ∃ j, j < 2 ∧ s.devices.getD j none = none) :
    InvA (departurePull svc s) := by
  by_cases hemp : s.buffer.isEmpty = true
  · have hres : departurePull svc s = s := by
      unfold departurePull
      rw [if_pos hemp]
    rw [hres]
    exact inv
  · obtain ⟨hdev, hids, hcorr, hbufid, htagN, htagB, hcons, hsize, hcur⟩ := inv
    rcases hgn : getNextRequest s.buffer s.current_serving_source with ⟨onr, buf, m'⟩
    have hperm0 := getNextRequest_perm s.buffer s.current_serving_source
    rw [hgn] at hperm0
    cases onr with
    | none =>
      have hres : departurePull svc s
          = { s with buffer := buf, current_serving_source := m' } := by
        unfold departurePull
        rw [if_neg hemp]
        simp only [hgn]
      rw [hres]
      have hperm : s.buffer.Perm buf := by simpa using hperm0
      refine ⟨hdev, hids, hcorr, ?_, ?_, ?_, ?_, ?_, hcur⟩
      · exact fun r hr => hbufid r (hperm.symm.subset hr)
      · exact (hperm.map Request.tag).nodup htagN
      · exact fun r hr => htagB r (hperm.symm.subset hr)
      · show s.requests_generated
          = s.requests_served + s.requests_rejected + buf.length + busyCount s
        rw [← hperm.length_eq]
        exact hcons
      · show buf.length ≤ 3
        rw [← hperm.length_eq]
        exact hsize
    | some nr =>
      obtain ⟨j, hj2, hjfree⟩ := hfree
      obtain ⟨d2, hgf, hd2, hd2free⟩ :=
        getFreeDevice_total s.devices s.last_used j hdev hcur.1 hj2 hjfree
      have hperm : s.buffer.Perm (buf ++ [nr]) := by simpa using hperm0
      have hpermc : s.buffer.Perm (nr :: buf) :=
        hperm.trans (List.perm_append_singleton _ _)
      have hsub : ∀ x ∈ buf, x ∈ s.buffer := by
        intro x hx
        exact hpermc.symm.subset (by simp [hx])
      have htagsN : ((nr :: buf).map Request.tag).Nodup :=
        (hpermc.map Request.tag).nodup htagN
      have hremove : removeRequest nr buf = buf := by
        apply removeRequest_of_tag_not_mem
        have h1 : (nr.tag :: buf.map Request.tag).Nodup := by
          rw [← List.map_cons]
          exact htagsN
        exact (List.nodup_cons.1 h1).1
      have hlen2 : buf.length + 1 = s.buffer.length := by
        have := hpermc.length_eq
        simp at this
        omega
      have hres : departurePull svc s = { s with
          buffer := removeRequest nr buf,
          current_serving_source := m',
          devices := s.devices.set d2
            (some { nr with start_service_time := s.current_time }),
          last_used := (d2 : ℤ),
          svc_count := bump s.svc_count d2,
          calendar := s.calendar ++
            [(⟨s.current_time + svc d2 (s.svc_count.getD d2 0), .departure, (d2 : ℤ),
               some { nr with start_service_time := s.current_time }⟩ : Event)] } := by
        unfold departurePull
        rw [if_neg hemp]
        simp only [hgn, hgf]
      rw [hres, hremove]
      refine ⟨?hdev, ?hids, ?hcorr, ?hbufid, ?htagN, ?htagB, ?hcons, ?hsize, ?hcur⟩
      case hdev => simpa using hdev
      case hids =>
        intro e he
        simp only [List.mem_append, List.mem_singleton] at he
        rcases he with he | rfl
        · exact hids e he
        · refine ⟨fun hc => absurd hc (by simp), fun _ => ⟨?_, ?_⟩⟩
          · show (0 : ℤ) ≤ (d2 : ℤ)
            omega
          · show (d2 : ℤ) < 2
            omega
      case hcorr =>
        intro d' hd'
        show depCountFor d' (s.calendar ++ _) = _
        rw [depCountFor_append]
        by_cases hdd : d' = d2
        · subst hdd
          rw [depCountFor_singleton_dep_self _ _ rfl rfl]
          have h2 := hcorr d' hd'
          rw [hd2free] at h2
          simp only [Option.isSome_none, Bool.false_eq_true, if_false] at h2
          have h3 : ((s.devices.set d' (some { nr with
              start_service_time := s.current_time })).getD d' none).isSome = true := by
            rw [getD_set_self _ _ _ _ (by omega)]
            rfl
          rw [h3, h2]
          simp
        · rw [depCountFor_singleton_dep_other d' _ (by show (d2 : ℤ) ≠ (d' : ℤ); omega)]
          have h3 : (s.devices.set d2 (some { nr with
              start_service_time := s.current_time })).getD d' none
              = s.devices.getD d' none := getD_set_ne _ _ _ _ _ (fun hc => hdd hc.symm)
          show _ + 0 = if ((s.devices.set d2 (some _)).getD d' none).isSome then 1 else 0
          rw [h3]
          have h2 := hcorr d' hd'
          omega
      case hbufid => exact fun r hr => hbufid r (hsub r hr)
      case htagN =>
        have h1 : (nr.tag :: buf.map Request.tag).Nodup := by
          rw [← List.map_cons]
          exact htagsN
        exact (List.nodup_cons.1 h1).2
      case htagB => exact fun r hr => htagB r (hsub r hr)
      case hcons =>
        show s.requests_generated = s.requests_served + s.requests_rejected
          + buf.length + (s.devices.set d2 (some { nr with
              start_service_time := s.current_time })).countP (·.isSome)
        rw [countP_set_some_of_free s.devices d2 _ hd2free (by omega)]
        unfold busyCount at hcons
        omega
      case hsize =>
        show buf.length ≤ 3
        omega
      case hcur =>
        refine ⟨?_, ?_⟩
        · show (-1 : ℤ) ≤ (d2 : ℤ)
          omega
        · show (d2 : ℤ) < 2
          omega

theorem InvA_processDeparture (svc : ℕ → ℕ → ℚ) (devId : ℤ) (s : SimState)
    (hdev : s.devices.length = 2)
    (hids : ∀ e ∈ s.calendar,
      (e.type = EventType.arrival → 0 ≤ e.entity_id ∧ e.entity_id < 3) ∧
      (e.type = EventType.departure → 0 ≤ e.entity_id ∧ e.entity_id < 2))
    (hbusy : ∃ fr, s.devices.getD devId.toNat none = some fr)
    (hdn : devId.toNat < 2)
    (hcorrSelf : depCountFor devId.toNat s.calendar = 0)
    (hcorrOther : ∀ d : ℕ, d < 2 → d ≠ devId.toNat →
      depCountFor d s.calendar = if (s.devices.getD d none).isSome then 1 else 0)
    (hbufid : ∀ r ∈ s.buffer, 0 ≤ r.source_id ∧ r.source_id < 3)
    (htagN : (s.buffer.map Request.tag).Nodup)
    (htagB : ∀ r ∈ s.buffer, r.tag < s.alloc)
    (hcons : s.requests_generated
      = s.requests_served + s.requests_rejected + s.buffer.length + busyCount s)
    (hsize : s.buffer.length ≤ 3)
    (hcur : -1 ≤ s.last_used ∧ s.last_used < 2) :
    InvA (processDeparture svc devId s) := by
  obtain ⟨fr, hfr⟩ := hbusy
  unfold processDeparture
  simp only [hfr]
  refine InvA_departurePull svc _
    ⟨?_, ?_, ?_, ?_, ?_, ?_, ?_, ?_, ?_⟩ ⟨devId.toNat, hdn, ?_⟩
  · show (s.devices.set devId.toNat none).length = 2
    simpa using hdev
  · exact hids
  · intro d' hd'
    by_cases hdd : d' = devId.toNat
    · subst hdd
      show depCountFor devId.toNat s.calendar
        = if ((s.devices.set devId.toNat none).getD devId.toNat none).isSome then 1 else 0
      rw [getD_set_self _ _ _ _ (by omega), hcorrSelf]
      simp
    · show depCountFor d' s.calendar
        = if ((s.devices.set devId.toNat none).getD d' none).isSome then 1 else 0
      rw [getD_set_ne _ _ _ _ _ (fun hc => hdd hc.symm)]
      exact hcorrOther d' hd' hdd
  · exact hbufid
  · exact htagN
  · exact htagB
  · show s.requests_generated = s.requests_served + 1 + s.requests_rejected
      + s.buffer.length + (s.devices.set devId.toNat none).countP (·.isSome)
    have h1 := countP_set_none_of_busy s.devices devId.toNat fr hfr
    unfold busyCount at hcons
    omega
  · exact hsize
  · exact hcur
  · show (s.devices.set devId.toNat none).getD devId.toNat none = none
    rw [getD_set_self _ _ _ _ (by omega)]

theorem depCountFor_erase_of_not (d : ℕ) (e : Event) (cal : List Event)
    (he : e ∈ cal) (h : isDepFor d e = false) :
    depCountFor d (cal.erase e) = depCountFor d cal := by
  have h1 := depCountFor_erase d e cal he
  rw [h] at h1
  simp at h1
  omega

theorem depCountFor_erase_of_dep (d : ℕ) (e : Event) (cal : List Event)
    (he : e ∈ cal) (h : isDepFor d e = true) :
    depCountFor d cal = depCountFor d (cal.erase e) + 1 := by
  have h1 := depCountFor_erase d e cal he
  rw [h] at h1
  simpa using h1

theorem InvA_step (intv svc : ℕ → ℕ → ℚ) (s s' : SimState) (inv : InvA s)
    (hst : Step intv svc s s') : InvA s' := by
  obtain ⟨e, he, hmin, rfl⟩ := hst
  obtain ⟨hdev, hids, hcorr, hbufid, htagN, htagB, hcons, hsize, hcur⟩ := inv
  unfold processEvent
  rcases het : e.type with _ | _
  · -- arrival event
    apply InvA_processArrival
    · refine ⟨hdev, ?_, ?_, hbufid, htagN, htagB, hcons, hsize, hcur⟩
      · intro e' he'
        exact hids e' (List.mem_of_mem_erase he')
      · intro d hd
        show depCountFor d (s.calendar.erase e)
          = if (s.devices.getD d none).isSome then 1 else 0
        rw [depCountFor_erase_of_not d e s.calendar he (isDepFor_arrival d e het)]
        exact hcorr d hd
    · exact (hids e he).1 het
  · -- departure event
    have hdi := (hids e he).2 het
    have hdn : e.entity_id.toNat < 2 := by omega
    have hcast : (e.entity_id.toNat : ℤ) = e.entity_id := Int.toNat_of_nonneg hdi.1
    have hdepe : isDepFor e.entity_id.toNat e = true := by
      simp [isDepFor, het, hcast]
    have hpos : 0 < depCountFor e.entity_id.toNat s.calendar := by
      unfold depCountFor
      exact List.countP_pos_iff.2 ⟨e, he, hdepe⟩
    have hbusy : (s.devices.getD e.entity_id.toNat none).isSome = true := by
      have hcount := hcorr e.entity_id.toNat hdn
      cases hq : (s.devices.getD e.entity_id.toNat none).isSome
      · rw [hq] at hcount
        simp only [Bool.false_eq_true, if_false] at hcount
        omega
      · rfl
    obtain ⟨fr, hfr⟩ : ∃ fr, s.devices.getD e.entity_id.toNat none = some fr := by
      cases hq : s.devices.getD e.entity_id.toNat none
      · rw [hq] at hbusy
        simp at hbusy
      · exact ⟨_, rfl⟩
    have herase := depCountFor_erase_of_dep e.entity_id.toNat e s.calendar he hdepe
    apply InvA_processDeparture
    · exact hdev
    · intro e' he'
      exact hids e' (List.mem_of_mem_erase he')
    · exact ⟨fr, hfr⟩
    · exact hdn
    · show depCountFor e.entity_id.toNat (s.calendar.erase e) = 0
      have hcount := hcorr e.entity_id.toNat hdn
      rw [hbusy] at hcount
      simp only [if_true] at hcount
      omega
    · intro d hd2 hne
      have hfalse : isDepFor d e = false := by
        simp only [isDepFor, het, decide_eq_true_eq, Bool.and_eq_false_iff,
          decide_eq_false_iff_not]
        right
        rw [← hcast]
        intro hc
        exact hne (by exact_mod_cast hc.symm)
      show depCountFor d (s.calendar.erase e)
        = if (s.devices.getD d none).isSome then 1 else 0
      rw [depCountFor_erase_of_not d e s.calendar he hfalse]
      exact hcorr d hd2
    · exact hbufid
    · exact htagN
    · exact htagB
    · exact hcons
    · exact hsize
    · exact hcur

theorem InvA_init (intv : ℕ → ℕ → ℚ) : InvA (initState intv) := by
  refine ⟨rfl, ?_, ?_, ?_, ?_, ?_, ?_, ?_, ?_⟩
  · intro e he
    simp only [initState, List.mem_cons, List.not_mem_nil, or_false] at he
    rcases he with rfl | rfl | rfl
    all_goals exact ⟨fun _ => by norm_num, fun hc => absurd hc (by simp)⟩
  · intro d hd
    have h0 : depCountFor d (initState intv).calendar = 0 := by
      simp [initState, depCountFor, isDepFor, List.countP_cons]
    rw [h0]
    interval_cases d <;> simp [initState]
  · intro r hr
    simp [initState] at hr
  · simp [initState]
  · intro r hr
    simp [initState] at hr
  · simp [initState, busyCount]
  · simp [initState]
  · constructor
    · show (-1 : ℤ) ≤ -1
      norm_num
    · show (-1 : ℤ) < 2
      norm_num

theorem InvA_reachable (intv svc : ℕ → ℕ → ℚ) (s : SimState)
    (h : Reachable intv svc s) : InvA s := by
  induction h with
  | refl => exact InvA_init intv
  | tail _ hst ih => exact InvA_step intv svc _ _ ih hst

/-- C3: in every state reachable by the simulation engine from its
initial state, the buffer holds at most its capacity of 3 requests; in
particular the full-buffer arrival path (evict one, then insert) never
exceeds the capacity. -/
theorem reachable_buffer_le_capacity (intv svc : ℕ → ℕ → ℚ) (s : SimState)
    (h : Reachable intv svc s) : s.buffer.length ≤ 3 :=
  (InvA_reachable intv svc s h).hsize

/-- Witness for C3 at the initial state. -/
theorem reachable_buffer_le_capacity_instance :
    (initState (fun _ _ => 2)).buffer.length ≤ 3 :=
  reachable_buffer_le_capacity (fun _ _ => 2) (fun _ _ => 1) _
    Relation.ReflTransGen.refl

/-- C4: in every reachable state — during the run and at termination —
the number of generated requests equals the number of served plus
rejected requests plus the requests currently buffered plus the
requests currently in service on a device. -/
theorem reachable_conservation (intv svc : ℕ → ℕ → ℚ) (s : SimState)
    (h : Reachable intv svc s) :
    s.requests_generated = s.requests_served + s.requests_rejected
      + s.buffer.length + busyCount s :=
  (InvA_reachable intv svc s h).hcons

/-- Witness for C4 at the initial state. -/
theorem reachable_conservation_instance :
    (initState (fun _ _ => 2)).requests_generated
      = (initState (fun _ _ => 2)).requests_served
        + (initState (fun _ _ => 2)).requests_rejected
        + (initState (fun _ _ => 2)).buffer.length
        + busyCount (initState (fun _ _ => 2)) :=
  reachable_conservation (fun _ _ => 2) (fun _ _ => 1) _ Relation.ReflTransGen.refl

/-- Witness for C9's amended claim at the concrete degenerate state. -/
theorem arrival_full_no_candidate_inserts_instance :
    (processArrival (fun _ _ => 2) (fun _ _ => 2) 0 fullNoCandidateState).buffer
      = (findRequestToReject fullNoCandidateState.buffer).2
          ++ [arrivalRequest 0 fullNoCandidateState] ∧
    arrivalRequest 0 fullNoCandidateState
      ∈ (processArrival (fun _ _ => 2) (fun _ _ => 2) 0 fullNoCandidateState).buffer :=
  arrival_full_no_candidate_inserts _ _ _ _ (by decide) (by decide) (by decide)

/-! ### Timing invariant: clock monotone, request timestamps ordered -/

theorem getD_mem_of_ne_dflt {α : Type} :
    ∀ (l : List α) (i : ℕ) (dflt : α), l.getD i dflt ≠ dflt → l.getD i dflt ∈ l := by
  intro l
  induction l with
  | nil => intro i dflt h; simp at h
  | cons x xs ih =>
    intro i dflt h
    cases i with
    | zero => simp
    | succ j =>
      simp only [List.getD_cons_succ] at h ⊢
      exact List.mem_cons_of_mem x (ih j dflt h)

theorem getNextRequest_result_mem (l : List Request) (m : ℤ) (r : Request)
    (h : (getNextRequest l m).1 = some r) : r ∈ l := by
  have hp := getNextRequest_perm l m
  rw [h] at hp
  exact hp.symm.subset (by simp)

theorem getNextRequest_rest_sub (l : List Request) (m : ℤ) :
    ∀ x ∈ (getNextRequest l m).2.1, x ∈ l := by
  intro x hx
  have hp := getNextRequest_perm l m
  exact hp.symm.subset (by simp [hx])

theorem findRequestToReject_rest_sub (l : List Request) :
    ∀ x ∈ (findRequestToReject l).2, x ∈ l := by
  intro x hx
  have hp := findRequestToReject_perm l
  exact hp.symm.subset (by simp [hx])

/-- Timing invariant: no pending event lies in the clock's past, buffered
requests arrived by now, in-service requests were started between their
arrival and now, and every logged completion satisfies
arrival ≤ service start ≤ completion. -/
structure InvT (s : SimState) : Prop where
  hcal : ∀ e ∈ s.calendar, s.current_time ≤ e.time
  hbuf : ∀ r ∈ s.buffer, r.arrival_time ≤ s.current_time
  hdevt : ∀ o ∈ s.devices, ∀ r : Request, o = some r →
    r.arrival_time ≤ r.start_service_time ∧ r.start_service_time ≤ s.current_time
  hlog : ∀ r ∈ s.served_log,
    r.arrival_time ≤ r.start_service_time ∧
    r.start_service_time ≤ r.finish_service_time

theorem InvT_processArrival (intv svc : ℕ → ℕ → ℚ) (srcId : ℤ) (s : SimState)
    (hintv : ∀ i k, 0 ≤ intv i k) (hsvc : ∀ d k, 0 ≤ svc d k)
    (inv : InvT s) : InvT (processArrival intv svc srcId s) := by
  obtain ⟨hcal, hbuf, hdevt, hlog⟩ := inv
  have harr : s.current_time ≤ (nextArrivalEvent intv srcId s).time := by
    show s.current_time ≤ s.current_time + intv _ _
    have := hintv srcId.toNat (s.intv_count.getD srcId.toNat 0)
    linarith
  have hreqarr : (arrivalRequest srcId s).arrival_time = s.current_time := rfl
  rcases hg : getFreeDevice 2 s.last_used s.devices with ⟨og, lu⟩
  cases og with
  | some d =>
    have hres : processArrival intv svc srcId s = { s with
        requests_generated := s.requests_generated + 1,
        source_requests := bump s.source_requests srcId.toNat,
        intv_count := bump s.intv_count srcId.toNat,
        alloc := s.alloc + 1,
        devices := s.devices.set d
          (some { arrivalRequest srcId s with start_service_time := s.current_time }),
        last_used := lu,
        svc_count := bump s.svc_count d,
        calendar := (s.calendar ++ [nextArrivalEvent intv srcId s]) ++
          [(⟨s.current_time + svc d (s.svc_count.getD d 0), .departure, (d : ℤ),
             some { arrivalRequest srcId s with
                      start_service_time := s.current_time }⟩ : Event)] } := by
      unfold processArrival
      rw [hg]
    rw [hres]
    refine ⟨?_, hbuf, ?_, hlog⟩
    · intro e he
      simp only [List.mem_append, List.mem_singleton] at he
      rcases he with (he | rfl) | rfl
      · exact hcal e he
      · exact harr
      · show s.current_time ≤ s.current_time + svc d (s.svc_count.getD d 0)
        have := hsvc d (s.svc_count.getD d 0)
        linarith
    · intro o ho r hor
      rcases List.mem_or_eq_of_mem_set ho with ho' | rfl
      · exact hdevt o ho' r hor
      · injection hor with hor
        rw [← hor]
        exact ⟨le_refl _, le_refl _⟩
  | none =>
    by_cases hfull : isFull 3 s.buffer = true
    · rcases hfr : findRequestToReject s.buffer with ⟨orej, buf⟩
      cases orej with
      | some rej =>
        have hres : processArrival intv svc srcId s = { s with
            requests_generated := s.requests_generated + 1,
            source_requests := bump s.source_requests srcId.toNat,
            intv_count := bump s.intv_count srcId.toNat,
            alloc := s.alloc + 1,
            last_used := lu,
            source_rejections := bump s.source_rejections rej.source_id.toNat,
            requests_rejected := s.requests_rejected + 1,
            buffer := removeRequest rej buf ++ [arrivalRequest srcId s],
            calendar := s.calendar ++ [nextArrivalEvent intv srcId s] } := by
          unfold processArrival
          simp only [hg]
          rw [if_pos hfull, hfr]
        rw [hres]
        refine ⟨?_, ?_, hdevt, hlog⟩
        · intro e he
          simp only [List.mem_append, List.mem_singleton] at he
          rcases he with he | rfl
          · exact hcal e he
          · exact harr
        · intro r hr
          simp only [List.mem_append, List.mem_singleton] at hr
          rcases hr with hr | rfl
          · have hr' : r ∈ buf := List.mem_of_mem_filter hr
            have hsub : r ∈ s.buffer := by
              have := findRequestToReject_rest_sub s.buffer
              rw [hfr] at this
              exact this r hr'
            exact hbuf r hsub
          · rw [hreqarr]
      | none =>
        have hres : processArrival intv svc srcId s = { s with
            requests_generated := s.requests_generated + 1,
            source_requests := bump s.source_requests srcId.toNat,
            intv_count := bump s.intv_count srcId.toNat,
            alloc := s.alloc + 1,
            last_used := lu,
            buffer := buf ++ [arrivalRequest srcId s],
            calendar := s.calendar ++ [nextArrivalEvent intv srcId s] } := by
          unfold processArrival
          simp only [hg]
          rw [if_pos hfull, hfr]
        rw [hres]
        refine ⟨?_, ?_, hdevt, hlog⟩
        · intro e he
          simp only [List.mem_append, List.mem_singleton] at he
          rcases he with he | rfl
          · exact hcal e he
          · exact harr
        · intro r hr
          simp only [List.mem_append, List.mem_singleton] at hr
          rcases hr with hr | rfl
          · have hsub : r ∈ s.buffer := by
              have := findRequestToReject_rest_sub s.buffer
              rw [hfr] at this
              exact this r hr
            exact hbuf r hsub
          · rw [hreqarr]
    · have hnf : isFull 3 s.buffer = false := by
        cases hq : isFull 3 s.buffer
        · rfl
        · exact absurd hq hfull
      have hres : processArrival intv svc srcId s = { s with
          requests_generated := s.requests_generated + 1,
          source_requests := bump s.source_requests srcId.toNat,
          intv_count := bump s.intv_count srcId.toNat,
          alloc := s.alloc + 1,
          last_used := lu,
          buffer := s.buffer ++ [arrivalRequest srcId s],
          calendar := s.calendar ++ [nextArrivalEvent intv srcId s] } := by
        unfold processArrival
        simp only [hg, hnf, Bool.false_eq_true, if_false]
      rw [hres]
      refine ⟨?_, ?_, hdevt, hlog⟩
      · intro e he
        simp only [List.mem_append, List.mem_singleton] at he
        rcases he with he | rfl
        · exact hcal e he
        · exact harr
      · intro r hr
        simp only [List.mem_append, List.mem_singleton] at hr
        rcases hr with hr | rfl
        · exact hbuf r hr
        · rw [hreqarr]

theorem InvT_departurePull (svc : ℕ → ℕ → ℚ) (s : SimState)
    (hsvc : ∀ d k, 0 ≤ svc d k) (inv : InvT s) : InvT (departurePull svc s) := by
  obtain ⟨hcal, hbuf, hdevt, hlog⟩ := inv
  by_cases hemp : s.buffer.isEmpty = true
  · have hres : departurePull svc s = s := by
      unfold departurePull
      rw [if_pos hemp]
    rw [hres]
    exact ⟨hcal, hbuf, hdevt, hlog⟩
  · rcases hgn : getNextRequest s.buffer s.current_serving_source with ⟨onr, buf, m'⟩
    cases onr with
    | none =>
      have hres : departurePull svc s
          = { s with buffer := buf, current_serving_source := m' } := by
        unfold departurePull
        rw [if_neg hemp]
        simp only [hgn]
      rw [hres]
      refine ⟨hcal, ?_, hdevt, hlog⟩
      intro r hr
      have hsub : r ∈ s.buffer := by
        have := getNextRequest_rest_sub s.buffer s.current_serving_source
        rw [hgn] at this
        exact this r hr
      exact hbuf r hsub
    | some nr =>
      have hnrmem : nr ∈ s.buffer := by
        apply getNextRequest_result_mem s.buffer s.current_serving_source
        rw [hgn]
      rcases hgf : getFreeDevice 2 s.last_used s.devices with ⟨od2, lu⟩
      cases od2 with
      | some d2 =>
        have hres : departurePull svc s = { s with
            buffer := removeRequest nr buf,
            current_serving_source := m',
            devices := s.devices.set d2
              (some { nr with start_service_time := s.current_time }),
            last_used := lu,
            svc_count := bump s.svc_count d2,
            calendar := s.calendar ++
              [(⟨s.current_time + svc d2 (s.svc_count.getD d2 0), .departure, (d2 : ℤ),
                 some { nr with start_service_time := s.current_time }⟩ : Event)] } := by
          unfold departurePull
          rw [if_neg hemp]
          simp only [hgn, hgf]
        rw [hres]
        refine ⟨?_, ?_, ?_, hlog⟩
        · intro e he
          simp only [List.mem_append, List.mem_singleton] at he
          rcases he with he | rfl
          · exact hcal e he
          · show s.current_time ≤ s.current_time + svc d2 (s.svc_count.getD d2 0)
            have := hsvc d2 (s.svc_count.getD d2 0)
            linarith
        · intro r hr
          have hr' : r ∈ buf := List.mem_of_mem_filter hr
          have hsub : r ∈ s.buffer := by
            have := getNextRequest_rest_sub s.buffer s.current_serving_source
            rw [hgn] at this
            exact this r hr'
          exact hbuf r hsub
        · intro o ho r hor
          rcases List.mem_or_eq_of_mem_set ho with ho' | rfl
          · exact hdevt o ho' r hor
          · injection hor with hor
            rw [← hor]
            exact ⟨hbuf nr hnrmem, le_refl _⟩
      | none =>
        have hres : departurePull svc s = { s with
            buffer := removeRequest nr buf,
            current_serving_source := m',
            last_used := lu } := by
          unfold departurePull
          rw [if_neg hemp]
          simp only [hgn, hgf]
        rw [hres]
        refine ⟨hcal, ?_, hdevt, hlog⟩
        intro r hr
        have hr' : r ∈ buf := List.mem_of_mem_filter hr
        have hsub : r ∈ s.buffer := by
          have := getNextRequest_rest_sub s.buffer s.current_serving_source
          rw [hgn] at this
          exact this r hr'
        exact hbuf r hsub

theorem InvT_processDeparture (svc : ℕ → ℕ → ℚ) (devId : ℤ) (s : SimState)
    (hsvc : ∀ d k, 0 ≤ svc d k) (inv : InvT s) :
    InvT (processDeparture svc devId s) := by
  obtain ⟨hcal, hbuf, hdevt, hlog⟩ := inv
  unfold processDeparture
  rcases hocc : s.devices.getD devId.toNat none with _ | fr
  · simp only [hocc]
    apply InvT_departurePull svc _ hsvc
    refine ⟨hcal, hbuf, ?_, hlog⟩
    intro o ho r hor
    rcases List.mem_or_eq_of_mem_set ho with ho' | rfl
    · exact hdevt o ho' r hor
    · cases hor
  · simp only [hocc]
    apply InvT_departurePull svc _ hsvc
    have hfrmem : some fr ∈ s.devices := by
      rw [← hocc]
      exact getD_mem_of_ne_dflt s.devices devId.toNat none (by rw [hocc]; simp)
    have hfrb := hdevt (some fr) hfrmem fr rfl
    refine ⟨hcal, hbuf, ?_, ?_⟩
    · intro o ho r hor
      rcases List.mem_or_eq_of_mem_set ho with ho' | rfl
      · exact hdevt o ho' r hor
      · cases hor
    · intro r hr
      simp only [List.mem_append, List.mem_singleton] at hr
      rcases hr with hr | rfl
      · exact hlog r hr
      · exact ⟨hfrb.1, hfrb.2⟩

theorem InvT_step (intv svc : ℕ → ℕ → ℚ) (s s' : SimState)
    (hintv : ∀ i k, 0 ≤ intv i k) (hsvc : ∀ d k, 0 ≤ svc d k)
    (inv : InvT s) (hst : Step intv svc s s') : InvT s' := by
  obtain ⟨e, he, hmin, rfl⟩ := hst
  obtain ⟨hcal, hbuf, hdevt, hlog⟩ := inv
  have hclock : s.current_time ≤ e.time := hcal e he
  have invx : InvT { s with calendar := s.calendar.erase e, current_time := e.time } := by
    refine ⟨?_, ?_, ?_, hlog⟩
    · intro e' he'
      exact hmin e' (List.mem_of_mem_erase he')
    · intro r hr
      exact le_trans (hbuf r hr) hclock
    · intro o ho r hor
      obtain ⟨h1, h2⟩ := hdevt o ho r hor
      exact ⟨h1, le_trans h2 hclock⟩
  unfold processEvent
  rcases het : e.type with _ | _
  · exact InvT_processArrival intv svc e.entity_id _ hintv hsvc invx
  · exact InvT_processDeparture svc e.entity_id _ hsvc invx

theorem InvT_init (intv : ℕ → ℕ → ℚ) (hintv : ∀ i k, 0 ≤ intv i k) :
    InvT (initState intv) := by
  refine ⟨?_, ?_, ?_, ?_⟩
  · intro e he
    simp only [initState, List.mem_cons, List.not_mem_nil, or_false] at he
    rcases he with rfl | rfl | rfl
    all_goals exact hintv _ _
  · intro r hr
    simp [initState] at hr
  · intro o ho r hor
    simp only [initState, List.mem_cons, List.not_mem_nil, or_false] at ho
    rcases ho with rfl | rfl
    all_goals cases hor
  · intro r hr
    simp [initState] at hr

theorem InvT_reachable (intv svc : ℕ → ℕ → ℚ)
    (hintv : ∀ i k, 0 ≤ intv i k) (hsvc : ∀ d k, 0 ≤ svc d k)
    (s : SimState) (h : Reachable intv svc s) : InvT s := by
  induction h with
  | refl => exact InvT_init intv hintv
  | tail _ hst ih => exact InvT_step intv svc _ _ hintv hsvc ih hst

/-- C7: for every request that completes service in a reachable state of
the engine (interval and service-time draws are non-negative, as the
uniform and exponential distributions guarantee), the accumulated
waiting time is non-negative and the sojourn time is at least the
waiting time, because completion ≥ service start ≥ arrival. -/
theorem served_sojourn_ge_waiting (intv svc : ℕ → ℕ → ℚ)
    (hintv : ∀ i k, 0 ≤ intv i k) (hsvc : ∀ d k, 0 ≤ svc d k)
    (s : SimState) (h : Reachable intv svc s) (r : Request)
    (hr : r ∈ s.served_log) :
    0 ≤ r.start_service_time - r.arrival_time ∧
    r.start_service_time - r.arrival_time
      ≤ r.finish_service_time - r.arrival_time := by
  have hinv := InvT_reachable intv svc hintv hsvc s h
  obtain ⟨h1, h2⟩ := hinv.hlog r hr
  constructor <;> linarith

/-- Deterministic interval oracle for the C7 witness run (literal
values, one per source). -/
def wIntv : ℕ → ℕ → ℚ := fun i _ => if i = 0 then 2 else if i = 1 then 3 else 4

/-- Deterministic service-time oracle for the C7 witness run. -/
def wSvc : ℕ → ℕ → ℚ := fun _ _ => 1

/-- First popped event of the witness run: the source-0 arrival. -/
def wE0 : Event := ⟨2, .arrival, 0, none⟩

/-- State after the source-0 arrival was processed (device 0 starts
serving it and a departure at time 2 + 1 is scheduled). -/
def wS1 : SimState :=
  processEvent wIntv wSvc wE0
    { initState wIntv with
        calendar := (initState wIntv).calendar.erase wE0,
        current_time := wE0.time }

/-- Second popped event of the witness run: device 0's departure. -/
def wE1 : Event := ⟨2 + 1, .departure, 0, some ⟨0, 1, 2, 2, 0, 0⟩⟩

/-- State after the departure was processed: one request completed. -/
def wS2 : SimState :=
  processEvent wIntv wSvc wE1
    { wS1 with calendar := wS1.calendar.erase wE1, current_time := wE1.time }

theorem wS1_calendar :
    wS1.calendar = [⟨3, .arrival, 1, none⟩, ⟨4, .arrival, 2, none⟩,
      ⟨2 + 2, .arrival, 0, none⟩,
      ⟨2 + 1, .departure, 0, some ⟨0, 1, 2, 2, 0, 0⟩⟩] := rfl

theorem wS2_served_log : wS2.served_log = [⟨0, 1, 2, 2, 2 + 1, 0⟩] := rfl

theorem wS2_reachable : Reachable wIntv wSvc wS2 := by
  have h1 : Step wIntv wSvc (initState wIntv) wS1 := ⟨wE0, by decide, by decide, rfl⟩
  have h2 : Step wIntv wSvc wS1 wS2 := by
    refine ⟨wE1, ?_, ?_, rfl⟩
    · rw [wS1_calendar]
      simp only [List.mem_cons]
      exact Or.inr (Or.inr (Or.inr (Or.inl rfl)))
    · intro e' he'
      rw [wS1_calendar] at he'
      simp only [List.mem_cons, List.not_mem_nil, or_false] at he'
      rcases he' with rfl | rfl | rfl | rfl
      all_goals show wE1.time ≤ _
      all_goals norm_num [wE1]
  exact Relation.ReflTransGen.tail
    (Relation.ReflTransGen.tail Relation.ReflTransGen.refl h1) h2

/-- Witness for C7: in the two-step witness run, the completed request
has waiting time 0 and sojourn time 1 ≥ 0. -/
theorem served_sojourn_ge_waiting_instance :
    0 ≤ (⟨0, 1, 2, 2, 2 + 1, 0⟩ : Request).start_service_time
        - (⟨0, 1, 2, 2, 2 + 1, 0⟩ : Request).arrival_time ∧
    (⟨0, 1, 2, 2, 2 + 1, 0⟩ : Request).start_service_time
        - (⟨0, 1, 2, 2, 2 + 1, 0⟩ : Request).arrival_time
      ≤ (⟨0, 1, 2, 2, 2 + 1, 0⟩ : Request).finish_service_time
        - (⟨0, 1, 2, 2, 2 + 1, 0⟩ : Request).arrival_time :=
  served_sojourn_ge_waiting wIntv wSvc
    (fun i k => by
      unfold wIntv
      split
      · norm_num
      · split <;> norm_num)
    (fun d k => by unfold wSvc; norm_num)
    wS2 wS2_reachable ⟨0, 1, 2, 2, 2 + 1, 0⟩
    (by rw [wS2_served_log]; exact List.mem_singleton.2 rfl)

/-! ### The main loop: clock preservation and the max-time cutoff -/

theorem processArrival_current_time (intv svc : ℕ → ℕ → ℚ) (srcId : ℤ)
    (s : SimState) :
    (processArrival intv svc srcId s).current_time = s.current_time := by
  unfold processArrival
  rcases hg : getFreeDevice 2 s.last_used s.devices with ⟨og, lu⟩
  cases og with
  | some d => rfl
  | none =>
    cases hfull : isFull 3 s.buffer with
    | false => rfl
    | true =>
      rcases hfr : findRequestToReject s.buffer with ⟨orej, buf⟩
      cases orej with
      | some rej => rfl
      | none => rfl

theorem departurePull_current_time (svc : ℕ → ℕ → ℚ) (s : SimState) :
    (departurePull svc s).current_time = s.current_time := by
  unfold departurePull
  by_cases hemp : s.buffer.isEmpty = true
  · rw [if_pos hemp]
  · rw [if_neg hemp]
    rcases hgn : getNextRequest s.buffer s.current_serving_source with ⟨onr, buf, m'⟩
    cases onr with
    | some nr =>
      rcases hgf : getFreeDevice 2 s.last_used s.devices with ⟨od2, lu⟩
      cases od2 with
      | some d2 => rfl
      | none => rfl
    | none => rfl

theorem processDeparture_current_time (svc : ℕ → ℕ → ℚ) (devId : ℤ)
    (s : SimState) :
    (processDeparture svc devId s).current_time = s.current_time := by
  unfold processDeparture
  rcases hocc : s.devices.getD devId.toNat none with _ | fr
  · simp only [hocc]
    exact departurePull_current_time svc _
  · simp only [hocc]
    exact departurePull_current_time svc _

theorem processEvent_current_time (intv svc : ℕ → ℕ → ℚ) (e : Event)
    (s : SimState) :
    (processEvent intv svc e s).current_time = s.current_time := by
  unfold processEvent
  rcases e.type
  · exact processArrival_current_time intv svc e.entity_id s
  · exact processDeparture_current_time svc e.entity_id s

/-- C10: because the max-time guard is only checked before popping, an
event whose timestamp is already ≥ the configured max time is still
fully processed and sets the clock to its timestamp, and the loop
returns immediately afterwards (no further event is processed, whatever
fuel remains); consequently the reported total simulation time can
strictly exceed the configured max time, as in the concrete run where
`max_time = 1` and the final clock is 2. -/
theorem max_time_event_processed_last (intv svc : ℕ → ℕ → ℚ) (maxT : ℚ) (maxR : ℕ) :
    (∀ (s : SimState) (e : Event) (rest : List Event) (fuel : ℕ),
      loopCond maxT maxR s → popMin s.calendar = some (e, rest) → maxT ≤ e.time →
      runLoop intv svc maxT maxR (fuel + 2) s
        = some (processEvent intv svc e
            { s with calendar := rest, current_time := e.time }) ∧
      (processEvent intv svc e
        { s with calendar := rest, current_time := e.time }).current_time = e.time) ∧
    ((runLoop wIntv wSvc 1 5 10 (initState wIntv)).map SimState.current_time
        = some 2 ∧ (1 : ℚ) < 2) := by
  constructor
  · intro s e rest fuel hcond hpop ht
    have hclock : (processEvent intv svc e
        { s with calendar := rest, current_time := e.time }).current_time = e.time :=
      processEvent_current_time intv svc e _
    refine ⟨?_, hclock⟩
    show runLoop intv svc maxT maxR (fuel + 1 + 1) s = _
    unfold runLoop
    rw [if_pos hcond]
    unfold stepD
    rw [hpop]
    have hcond1 : ¬ loopCond maxT maxR (processEvent intv svc e
        { s with calendar := rest, current_time := e.time }) := by
      intro hc
      have h2 := hc.2.1
      rw [hclock] at h2
      linarith
    unfold runLoop
    rw [if_neg hcond1]
  · constructor
    · decide
    · norm_num

/-- Witness for C10: in the concrete run with `max_time = 1`, the head
event (the source-0 arrival at time 2, beyond the max time) is still
processed, the clock is set to 2, and the loop returns that state. -/
theorem max_time_event_processed_last_instance :
    runLoop wIntv wSvc 1 5 (0 + 2) (initState wIntv)
      = some (processEvent wIntv wSvc wE0
          { initState wIntv with
              calendar := [⟨3, .arrival, 1, none⟩, ⟨4, .arrival, 2, none⟩],
              current_time := wE0.time }) ∧
    (processEvent wIntv wSvc wE0
      { initState wIntv with
          calendar := [⟨3, .arrival, 1, none⟩, ⟨4, .arrival, 2, none⟩],
          current_time := wE0.time }).current_time = wE0.time :=
  (max_time_event_processed_last wIntv wSvc 1 5).1 (initState wIntv) wE0
    [⟨3, .arrival, 1, none⟩, ⟨4, .arrival, 2, none⟩] 0
    (by refine ⟨by decide, by decide, by decide⟩) (by decide) (by decide)

/-! ### Termination of the main loop -/

theorem popMin_spec : ∀ (cal : List Event) (e : Event) (rest : List Event),
    popMin cal = some (e, rest) →
    e ∈ cal ∧ (∀ e' ∈ cal, e.time ≤ e'.time) ∧ rest = cal.erase e := by
  intro cal
  induction cal with
  | nil => intro e rest h; cases h
  | cons a es ih =>
    intro e rest h
    unfold popMin at h
    cases hp : popMin es with
    | none =>
      rw [hp] at h
      injection h with h
      injection h with h1 h2
      subst h1
      subst h2
      have hes : es = [] := by
        cases es with
        | nil => rfl
        | cons b bs =>
          exfalso
          unfold popMin at hp
          cases hq : popMin bs with
          | none => rw [hq] at hp; cases hp
          | some p =>
            rw [hq] at hp
            rcases p with ⟨m, r⟩
            have hp' : (if b.time ≤ m.time then some (b, bs) else some (m, b :: r))
                = (none : Option (Event × List Event)) := hp
            by_cases hbm : b.time ≤ m.time
            · rw [if_pos hbm] at hp'
              cases hp'
            · rw [if_neg hbm] at hp'
              cases hp'
      subst hes
      refine ⟨by simp, ?_, by simp⟩
      intro e' he'
      simp only [List.mem_singleton] at he'
      subst he'
      exact le_refl _
    | some p =>
      rcases p with ⟨m, r⟩
      rw [hp] at h
      obtain ⟨hm, hmin, hr⟩ := ih m r hp
      have h' : (if a.time ≤ m.time then some (a, es) else some (m, a :: r))
          = some (e, rest) := h
      clear h
      rename' h' => h
      by_cases ham : a.time ≤ m.time
      · rw [if_pos ham] at h
        injection h with h
        injection h with h1 h2
        subst h1
        subst h2
        refine ⟨by simp, ?_, by simp⟩
        intro e' he'
        rcases List.mem_cons.1 he' with rfl | he'
        · exact le_refl _
        · exact le_trans ham (hmin e' he')
      · rw [if_neg ham] at h
        injection h with h
        injection h with h1 h2
        rw [← h1, ← h2]
        have hane : a ≠ m := by
          intro hc
          rw [hc] at ham
          exact ham (hmin m hm)
        refine ⟨List.mem_cons_of_mem a hm, ?_, ?_⟩
        · intro e' he'
          rcases List.mem_cons.1 he' with rfl | he'
          · exact le_of_not_le ham
          · exact hmin e' he'
        · have herase : (a :: es).erase m = a :: es.erase m := by
            apply List.erase_cons_tail
            simp only [beq_iff_eq]
            intro hc
            exact hane hc
          rw [herase, hr]

theorem popMin_of_ne_nil : ∀ (cal : List Event), cal ≠ [] →
    ∃ e rest, popMin cal = some (e, rest) := by
  intro cal hne
  cases cal with
  | nil => exact absurd rfl hne
  | cons a es =>
    unfold popMin
    cases hp : popMin es with
    | none => exact ⟨a, [], rfl⟩
    | some p =>
      rcases p with ⟨m, r⟩
      by_cases ham : a.time ≤ m.time
      · refine ⟨a, es, ?_⟩
        show (if a.time ≤ m.time then some (a, es) else some (m, a :: r))
          = some (a, es)
        rw [if_pos ham]
      · refine ⟨m, a :: r, ?_⟩
        show (if a.time ≤ m.time then some (a, es) else some (m, a :: r))
          = some (m, a :: r)
        rw [if_neg ham]

/-- The first half of C6: whenever the fuelled loop returns, one of the
three stopping conditions holds in the returned state. -/
theorem runLoop_stop (intv svc : ℕ → ℕ → ℚ) (maxT : ℚ) (maxR : ℕ) :
    ∀ (fuel : ℕ) (s s' : SimState),
    runLoop intv svc maxT maxR fuel s = some s' →
    s'.calendar = [] ∨ maxT ≤ s'.current_time ∨ maxR ≤ s'.requests_served := by
  intro fuel
  induction fuel with
  | zero => intro s s' h; cases h
  | succ n ih =>
    intro s s' h
    unfold runLoop at h
    by_cases hc : loopCond maxT maxR s
    · rw [if_pos hc] at h
      cases hst : stepD intv svc s with
      | none => rw [hst] at h; cases h
      | some s1 =>
        rw [hst] at h
        exact ih s1 s' h
    · rw [if_neg hc] at h
      injection h with h
      subst h
      unfold loopCond at hc
      push_neg at hc
      by_cases h1 : s.calendar = []
      · exact Or.inl h1
      · by_cases h2 : maxT ≤ s.current_time
        · exact Or.inr (Or.inl h2)
        · exact Or.inr (Or.inr (hc h1 (lt_of_not_le h2)))

/-- Upper bound on the number of arrivals an arrival event at time `t`
can still trigger before the clock passes `maxT`: successive arrivals of
one source are at least 3/2 time units apart (the uniform intervals have
minimum 1.5). -/
def gBound (maxT t : ℚ) : ℕ := (⌈(maxT - t) / (3 / 2 : ℚ)⌉).toNat + 1

/-- Total arrival potential of a calendar. -/
def arrCost (maxT : ℚ) (cal : List Event) : ℕ :=
  ((cal.filter fun e => decide (e.type = EventType.arrival)).map
    fun e => gBound maxT e.time).sum

/-- Number of pending departure events. -/
def depCount (cal : List Event) : ℕ :=
  (cal.filter fun e => decide (e.type = EventType.departure)).length

/-- The loop potential: a strict upper bound on the number of remaining
iterations. -/
def phi (maxT : ℚ) (s : SimState) : ℕ :=
  10 * (if s.current_time < maxT then 1 else 0) + 3 * arrCost maxT s.calendar
    + 2 * depCount s.calendar + s.buffer.length

theorem gBound_pos (maxT t : ℚ) : 1 ≤ gBound maxT t := by
  unfold gBound
  omega

theorem gBound_of_le (maxT t : ℚ) (h : maxT ≤ t) : gBound maxT t = 1 := by
  unfold gBound
  have h1 : (maxT - t) / (3 / 2 : ℚ) ≤ 0 := by
    apply div_nonpos_of_nonpos_of_nonneg <;> linarith
  have h2 : (⌈(maxT - t) / (3 / 2 : ℚ)⌉ : ℤ) ≤ 0 := by
    apply Int.ceil_le.2
    exact_mod_cast h1
  omega

theorem gBound_mono (maxT t u : ℚ) (h : t ≤ u) : gBound maxT u ≤ gBound maxT t := by
  unfold gBound
  have h1 : (maxT - u) / (3 / 2 : ℚ) ≤ (maxT - t) / (3 / 2 : ℚ) := by
    apply div_le_div_of_nonneg_right ?_ (by norm_num)
    linarith
  have h2 := Int.ceil_le_ceil h1
  omega

theorem gBound_decrease (maxT t u : ℚ) (ht : t < maxT) (hu : t + 3 / 2 ≤ u) :
    gBound maxT u + 1 ≤ gBound maxT t := by
  have hstep : gBound maxT (t + 3 / 2) + 1 ≤ gBound maxT t := by
    unfold gBound
    have he : (maxT - (t + 3 / 2)) / (3 / 2 : ℚ)
        = (maxT - t) / (3 / 2 : ℚ) - 1 := by
      field_simp
      ring
    have hc : ⌈(maxT - (t + 3 / 2)) / (3 / 2 : ℚ)⌉
        = ⌈(maxT - t) / (3 / 2 : ℚ)⌉ - 1 := by
      rw [he]
      exact_mod_cast Int.ceil_sub_int ((maxT - t) / (3 / 2 : ℚ)) 1
    have hpos : 0 < ⌈(maxT - t) / (3 / 2 : ℚ)⌉ := by
      apply Int.ceil_pos.2
      apply div_pos ?_ (by norm_num)
      linarith
    omega
  exact le_trans (by have := gBound_mono maxT (t + 3 / 2) u hu; omega) hstep

theorem arrCost_append (maxT : ℚ) (c1 c2 : List Event) :
    arrCost maxT (c1 ++ c2) = arrCost maxT c1 + arrCost maxT c2 := by
  unfold arrCost
  rw [List.filter_append, List.map_append, List.sum_append]

theorem depCount_append (c1 c2 : List Event) :
    depCount (c1 ++ c2) = depCount c1 + depCount c2 := by
  unfold depCount
  rw [List.filter_append, List.length_append]

theorem arrCost_perm (maxT : ℚ) (c1 c2 : List Event) (h : c1.Perm c2) :
    arrCost maxT c1 = arrCost maxT c2 := by
  unfold arrCost
  exact ((h.filter _).map _).sum_eq

theorem depCount_perm (c1 c2 : List Event) (h : c1.Perm c2) :
    depCount c1 = depCount c2 := by
  unfold depCount
  exact (h.filter _).length_eq

theorem arrCost_cons_arrival (maxT : ℚ) (e : Event) (cal : List Event)
    (h : e.type = EventType.arrival) :
    arrCost maxT (e :: cal) = gBound maxT e.time + arrCost maxT cal := by
  unfold arrCost
  rw [List.filter_cons_of_pos (by simp [h]), List.map_cons, List.sum_cons]

theorem arrCost_cons_dep (maxT : ℚ) (e : Event) (cal : List Event)
    (h : e.type = EventType.departure) :
    arrCost maxT (e :: cal) = arrCost maxT cal := by
  unfold arrCost
  rw [List.filter_cons_of_neg (by simp [h])]

theorem depCount_cons_arrival (e : Event) (cal : List Event)
    (h : e.type = EventType.arrival) : depCount (e :: cal) = depCount cal := by
  unfold depCount
  rw [List.filter_cons_of_neg (by simp [h])]

theorem depCount_cons_dep (e : Event) (cal : List Event)
    (h : e.type = EventType.departure) :
    depCount (e :: cal) = depCount cal + 1 := by
  unfold depCount
  rw [List.filter_cons_of_pos (by simp [h]), List.length_cons]

theorem arrCost_erase_arrival (maxT : ℚ) (e : Event) (cal : List Event)
    (he : e ∈ cal) (h : e.type = EventType.arrival) :
    arrCost maxT cal = gBound maxT e.time + arrCost maxT (cal.erase e) := by
  rw [arrCost_perm maxT cal _ (List.perm_cons_erase he)]
  exact arrCost_cons_arrival maxT e _ h

theorem arrCost_erase_dep (maxT : ℚ) (e : Event) (cal : List Event)
    (he : e ∈ cal) (h : e.type = EventType.departure) :
    arrCost maxT cal = arrCost maxT (cal.erase e) := by
  rw [arrCost_perm maxT cal _ (List.perm_cons_erase he)]
  exact arrCost_cons_dep maxT e _ h

theorem depCount_erase_arrival (e : Event) (cal : List Event)
    (he : e ∈ cal) (h : e.type = EventType.arrival) :
    depCount cal = depCount (cal.erase e) := by
  rw [depCount_perm cal _ (List.perm_cons_erase he)]
  exact depCount_cons_arrival e _ h

theorem depCount_erase_dep (e : Event) (cal : List Event)
    (he : e ∈ cal) (h : e.type = EventType.departure) :
    depCount cal = depCount (cal.erase e) + 1 := by
  rw [depCount_perm cal _ (List.perm_cons_erase he)]
  exact depCount_cons_dep e _ h

theorem arrCost_all_dep (maxT : ℚ) (D : List Event)
    (h : ∀ e ∈ D, e.type = EventType.departure) : arrCost maxT D = 0 := by
  induction D with
  | nil => rfl
  | cons a t ih =>
    rw [arrCost_cons_dep maxT a t (h a (by simp))]
    exact ih fun e he => h e (by simp [he])

theorem depCount_all_dep (D : List Event)
    (h : ∀ e ∈ D, e.type = EventType.departure) : depCount D = D.length := by
  induction D with
  | nil => rfl
  | cons a t ih =>
    rw [depCount_cons_dep a t (h a (by simp)), List.length_cons,
      ih fun e he => h e (by simp [he])]

/-- Shape of `processArrival` for the termination argument: the clock is
unchanged, the calendar grows by the source's next arrival event plus at
most one departure event, and the buffer grows by at most one entry
(exactly when no departure event was added). -/
theorem processArrival_shape (intv svc : ℕ → ℕ → ℚ) (srcId : ℤ) (s : SimState) :
    (processArrival intv svc srcId s).current_time = s.current_time ∧
    ∃ D : List Event,
      (processArrival intv svc srcId s).calendar
        = s.calendar ++ [nextArrivalEvent intv srcId s] ++ D ∧
      (∀ ev ∈ D, ev.type = EventType.departure) ∧
      ((D = [] ∧
          (processArrival intv svc srcId s).buffer.length ≤ s.buffer.length + 1) ∨
       (D.length = 1 ∧ (processArrival intv svc srcId s).buffer = s.buffer)) := by
  rcases hg : getFreeDevice 2 s.last_used s.devices with ⟨og, lu⟩
  cases og with
  | some d =>
    have hres : processArrival intv svc srcId s = { s with
        requests_generated := s.requests_generated + 1,
        source_requests := bump s.source_requests srcId.toNat,
        intv_count := bump s.intv_count srcId.toNat,
        alloc := s.alloc + 1,
        devices := s.devices.set d
          (some { arrivalRequest srcId s with start_service_time := s.current_time }),
        last_used := lu,
        svc_count := bump s.svc_count d,
        calendar := (s.calendar ++ [nextArrivalEvent intv srcId s]) ++
          [(⟨s.current_time + svc d (s.svc_count.getD d 0), .departure, (d : ℤ),
             some { arrivalRequest srcId s with
                      start_service_time := s.current_time }⟩ : Event)] } := by
      unfold processArrival
      rw [hg]
    rw [hres]
    refine ⟨rfl, [(⟨s.current_time + svc d (s.svc_count.getD d 0), .departure, (d : ℤ),
      some { arrivalRequest srcId s with
               start_service_time := s.current_time }⟩ : Event)], rfl, ?_, ?_⟩
    · intro ev hev
      simp only [List.mem_singleton] at hev
      subst hev
      rfl
    · exact Or.inr ⟨rfl, rfl⟩
  | none =>
    by_cases hfull : isFull 3 s.buffer = true
    · rcases hrej : findRequestToReject s.buffer with ⟨orej, buf⟩
      cases orej with
      | some rej =>
        have hres : processArrival intv svc srcId s = { s with
            requests_generated := s.requests_generated + 1,
            source_requests := bump s.source_requests srcId.toNat,
            intv_count := bump s.intv_count srcId.toNat,
            alloc := s.alloc + 1,
            last_used := lu,
            source_rejections := bump s.source_rejections rej.source_id.toNat,
            requests_rejected := s.requests_rejected + 1,
            buffer := removeRequest rej buf ++ [arrivalRequest srcId s],
            calendar := s.calendar ++ [nextArrivalEvent intv srcId s] } := by
          unfold processArrival
          simp only [hg]
          rw [if_pos hfull, hrej]
        rw [hres]
        have hperm := findRequestToReject_perm s.buffer
        rw [hrej] at hperm
        have hlen : s.buffer.length = buf.length + 1 := by
          have := hperm.length_eq
          simpa using this
        refine ⟨rfl, [], by simp, by simp, Or.inl ⟨rfl, ?_⟩⟩
        show (removeRequest rej buf ++ [arrivalRequest srcId s]).length
          ≤ s.buffer.length + 1
        rw [List.length_append]
        have h1 : (removeRequest rej buf).length ≤ buf.length :=
          List.length_filter_le _ _
        simp only [List.length_singleton]
        omega
      | none =>
        have hres : processArrival intv svc srcId s = { s with
            requests_generated := s.requests_generated + 1,
            source_requests := bump s.source_requests srcId.toNat,
            intv_count := bump s.intv_count srcId.toNat,
            alloc := s.alloc + 1,
            last_used := lu,
            buffer := buf ++ [arrivalRequest srcId s],
            calendar := s.calendar ++ [nextArrivalEvent intv srcId s] } := by
          unfold processArrival
          simp only [hg]
          rw [if_pos hfull, hrej]
        rw [hres]
        have hperm := findRequestToReject_perm s.buffer
        rw [hrej] at hperm
        have hlen : s.buffer.length = buf.length := by
          have := hperm.length_eq
          simpa using this
        refine ⟨rfl, [], by simp, by simp, Or.inl ⟨rfl, ?_⟩⟩
        show (buf ++ [arrivalRequest srcId s]).length ≤ s.buffer.length + 1
        rw [List.length_append]
        simp only [List.length_singleton]
        omega
    · have hres : processArrival intv svc srcId s = { s with
          requests_generated := s.requests_generated + 1,
          source_requests := bump s.source_requests srcId.toNat,
          intv_count := bump s.intv_count srcId.toNat,
          alloc := s.alloc + 1,
          last_used := lu,
          buffer := s.buffer ++ [arrivalRequest srcId s],
          calendar := s.calendar ++ [nextArrivalEvent intv srcId s] } := by
        unfold processArrival
        simp only [hg]
        rw [if_neg hfull]
      rw [hres]
      refine ⟨rfl, [], by simp, by simp, Or.inl ⟨rfl, ?_⟩⟩
      show (s.buffer ++ [arrivalRequest srcId s]).length ≤ s.buffer.length + 1
      rw [List.length_append]
      simp

/-- Shape of `departurePull`: the clock is unchanged, the calendar grows
by at most one departure event, and the buffer shrinks by at least one
entry whenever a departure event was added. -/
theorem departurePull_shape (svc : ℕ → ℕ → ℚ) (s : SimState) :
    (departurePull svc s).current_time = s.current_time ∧
    ∃ D : List Event, (departurePull svc s).calendar = s.calendar ++ D ∧
      (∀ ev ∈ D, ev.type = EventType.departure) ∧
      ((D = [] ∧ (departurePull svc s).buffer.length ≤ s.buffer.length) ∨
       (D.length = 1 ∧ (departurePull svc s).buffer.length + 1 ≤ s.buffer.length)) := by
  by_cases hbe : s.buffer.isEmpty = true
  · have hres : departurePull svc s = s := by
      unfold departurePull
      rw [if_pos hbe]
    rw [hres]
    exact ⟨rfl, [], by simp, by simp, Or.inl ⟨rfl, le_refl _⟩⟩
  · rcases hgn : getNextRequest s.buffer s.current_serving_source with ⟨onr, buf, m1⟩
    cases onr with
    | some nr =>
      have hperm := getNextRequest_perm s.buffer s.current_serving_source
      rw [hgn] at hperm
      have hlen : s.buffer.length = buf.length + 1 := by
        have := hperm.length_eq
        simpa using this
      rcases hgf : getFreeDevice 2 s.last_used s.devices with ⟨od, lu⟩
      cases od with
      | some d2 =>
        have hres : departurePull svc s = { s with
            buffer := removeRequest nr buf,
            current_serving_source := m1,
            devices := s.devices.set d2
              (some { nr with start_service_time := s.current_time }),
            last_used := lu,
            svc_count := bump s.svc_count d2,
            calendar := s.calendar ++
              [(⟨s.current_time + svc d2 (s.svc_count.getD d2 0), .departure,
                 (d2 : ℤ),
                 some { nr with start_service_time := s.current_time }⟩ : Event)] } := by
          unfold departurePull
          rw [if_neg hbe]
          simp only [hgn, hgf]
        rw [hres]
        refine ⟨rfl, [(⟨s.current_time + svc d2 (s.svc_count.getD d2 0), .departure,
          (d2 : ℤ),
          some { nr with start_service_time := s.current_time }⟩ : Event)],
          rfl, ?_, Or.inr ⟨rfl, ?_⟩⟩
        · intro ev hev
          simp only [List.mem_singleton] at hev
          subst hev
          rfl
        · show (removeRequest nr buf).length + 1 ≤ s.buffer.length
          have h1 : (removeRequest nr buf).length ≤ buf.length :=
            List.length_filter_le _ _
          omega
      | none =>
        have hres : departurePull svc s = { s with
            buffer := removeRequest nr buf,
            current_serving_source := m1,
            last_used := lu } := by
          unfold departurePull
          rw [if_neg hbe]
          simp only [hgn, hgf]
        rw [hres]
        refine ⟨rfl, [], by simp, by simp, Or.inl ⟨rfl, ?_⟩⟩
        show (removeRequest nr buf).length ≤ s.buffer.length
        have h1 : (removeRequest nr buf).length ≤ buf.length :=
          List.length_filter_le _ _
        omega
    | none =>
      have hperm := getNextRequest_perm s.buffer s.current_serving_source
      rw [hgn] at hperm
      have hlen : s.buffer.length = buf.length := by
        have := hperm.length_eq
        simpa using this
      have hres : departurePull svc s
          = { s with buffer := buf, current_serving_source := m1 } := by
        unfold departurePull
        rw [if_neg hbe]
        simp only [hgn]
      rw [hres]
      refine ⟨rfl, [], by simp, by simp, Or.inl ⟨rfl, ?_⟩⟩
      show buf.length ≤ s.buffer.length
      omega

/-- Shape of `processDeparture`: the clock is unchanged, the calendar
grows by at most one departure event, with the buffer shrinking whenever
one was added. -/
theorem processDeparture_shape (svc : ℕ → ℕ → ℚ) (devId : ℤ) (s : SimState) :
    (processDeparture svc devId s).current_time = s.current_time ∧
    ∃ D : List Event, (processDeparture svc devId s).calendar = s.calendar ++ D ∧
      (∀ ev ∈ D, ev.type = EventType.departure) ∧
      ((D = [] ∧ (processDeparture svc devId s).buffer.length ≤ s.buffer.length) ∨
       (D.length = 1 ∧
          (processDeparture svc devId s).buffer.length + 1 ≤ s.buffer.length)) := by
  cases hfr : s.devices.getD devId.toNat none with
  | some fr =>
    have hres : processDeparture svc devId s = departurePull svc { s with
        devices := s.devices.set devId.toNat none,
        requests_served := s.requests_served + 1,
        source_total_time :=
          addAt s.source_total_time fr.source_id.toNat
            (s.current_time - fr.arrival_time),
        source_waiting_time :=
          addAt s.source_waiting_time fr.source_id.toNat
            (fr.start_service_time - fr.arrival_time),
        device_busy_time :=
          addAt s.device_busy_time devId.toNat
            (s.current_time - fr.start_service_time),
        served_log := s.served_log
          ++ [{ fr with finish_service_time := s.current_time }] } := by
      unfold processDeparture
      simp only [hfr]
    rw [hres]
    exact departurePull_shape svc _
  | none =>
    have hres : processDeparture svc devId s
        = departurePull svc { s with devices := s.devices.set devId.toNat none } := by
      unfold processDeparture
      simp only [hfr]
    rw [hres]
    exact departurePull_shape svc _

/-- Each executing loop iteration strictly decreases the potential,
provided every interval draw is at least the sources' minimum 3/2. -/
theorem stepD_decrease (intv svc : ℕ → ℕ → ℚ) (maxT : ℚ) (maxR : ℕ)
    (hintv : ∀ i k, (3 / 2 : ℚ) ≤ intv i k) (s s' : SimState)
    (hc : loopCond maxT maxR s) (hs : stepD intv svc s = some s') :
    phi maxT s' < phi maxT s := by
  have hclock : s.current_time < maxT := hc.2.1
  unfold stepD at hs
  cases hp : popMin s.calendar with
  | none => rw [hp] at hs; cases hs
  | some p =>
    rcases p with ⟨e, rest⟩
    rw [hp] at hs
    injection hs with hs
    obtain ⟨hmem, hmin, hrest⟩ := popMin_spec s.calendar e rest hp
    subst hs
    cases he : e.type with
    | arrival =>
      have hproc : processEvent intv svc e
          { s with calendar := rest, current_time := e.time }
          = processArrival intv svc e.entity_id
            { s with calendar := rest, current_time := e.time } := by
        unfold processEvent
        rw [he]
      rw [hproc]
      obtain ⟨hct, D, hcal, hDdep, hDcase⟩ := processArrival_shape intv svc
        e.entity_id { s with calendar := rest, current_time := e.time }
      have hct2 : (processArrival intv svc e.entity_id
          { s with calendar := rest, current_time := e.time }).current_time
          = e.time := hct
      have hcal2 : (processArrival intv svc e.entity_id
          { s with calendar := rest, current_time := e.time }).calendar
          = rest ++ [nextArrivalEvent intv e.entity_id
              { s with calendar := rest, current_time := e.time }] ++ D := hcal
      have hA_type : (nextArrivalEvent intv e.entity_id
          { s with calendar := rest, current_time := e.time }).type
          = EventType.arrival := rfl
      have h32 : e.time + 3 / 2 ≤ (nextArrivalEvent intv e.entity_id
          { s with calendar := rest, current_time := e.time }).time := by
        show e.time + 3 / 2 ≤ e.time + intv e.entity_id.toNat
          (s.intv_count.getD e.entity_id.toNat 0)
        have := hintv e.entity_id.toNat (s.intv_count.getD e.entity_id.toNat 0)
        linarith
      have hg0 : arrCost maxT ([] : List Event) = 0 := rfl
      have hd0 : depCount ([] : List Event) = 0 := rfl
      have hAC2 : arrCost maxT (processArrival intv svc e.entity_id
          { s with calendar := rest, current_time := e.time }).calendar
          = arrCost maxT rest + gBound maxT (nextArrivalEvent intv e.entity_id
              { s with calendar := rest, current_time := e.time }).time := by
        rw [hcal2, arrCost_append, arrCost_append,
          arrCost_all_dep maxT D hDdep,
          arrCost_cons_arrival maxT _ [] hA_type, hg0]
        omega
      have hDC2 : depCount (processArrival intv svc e.entity_id
          { s with calendar := rest, current_time := e.time }).calendar
          = depCount rest + D.length := by
        rw [hcal2, depCount_append, depCount_append,
          depCount_all_dep D hDdep,
          depCount_cons_arrival _ [] hA_type, hd0]
        omega
      have hACs : arrCost maxT s.calendar
          = gBound maxT e.time + arrCost maxT rest := by
        rw [hrest]
        exact arrCost_erase_arrival maxT e s.calendar hmem he
      have hDCs : depCount s.calendar = depCount rest := by
        rw [hrest]
        exact depCount_erase_arrival e s.calendar hmem he
      have hbufcase : (D.length = 0 ∧ (processArrival intv svc e.entity_id
            { s with calendar := rest, current_time := e.time }).buffer.length
            ≤ s.buffer.length + 1) ∨
          (D.length = 1 ∧ (processArrival intv svc e.entity_id
            { s with calendar := rest, current_time := e.time }).buffer.length
            = s.buffer.length) := by
        rcases hDcase with ⟨hD0, hbuf⟩ | ⟨hD1, hbuf⟩
        · refine Or.inl ⟨by rw [hD0]; rfl, hbuf⟩
        · refine Or.inr ⟨hD1, ?_⟩
          have hb : (processArrival intv svc e.entity_id
              { s with calendar := rest, current_time := e.time }).buffer.length
              = s.buffer.length := congrArg List.length hbuf
          exact hb
      unfold phi
      rw [hct2, if_pos hclock, hAC2, hDC2, hACs, hDCs]
      by_cases hemt : e.time < maxT
      · have hdec := gBound_decrease maxT e.time (nextArrivalEvent intv e.entity_id
          { s with calendar := rest, current_time := e.time }).time hemt h32
        rw [if_pos hemt]
        rcases hbufcase with ⟨hD0, hbuf⟩ | ⟨hD1, hbuf⟩ <;> omega
      · have hle : maxT ≤ e.time := le_of_not_lt hemt
        have hge : gBound maxT e.time = 1 := gBound_of_le maxT e.time hle
        have hgA : gBound maxT (nextArrivalEvent intv e.entity_id
            { s with calendar := rest, current_time := e.time }).time = 1 :=
          gBound_of_le maxT _ (by linarith)
        rw [if_neg hemt, hge, hgA]
        rcases hbufcase with ⟨hD0, hbuf⟩ | ⟨hD1, hbuf⟩ <;> omega
    | departure =>
      have hproc : processEvent intv svc e
          { s with calendar := rest, current_time := e.time }
          = processDeparture svc e.entity_id
            { s with calendar := rest, current_time := e.time } := by
        unfold processEvent
        rw [he]
      rw [hproc]
      obtain ⟨hct, D, hcal, hDdep, hDcase⟩ := processDeparture_shape svc
        e.entity_id { s with calendar := rest, current_time := e.time }
      have hct2 : (processDeparture svc e.entity_id
          { s with calendar := rest, current_time := e.time }).current_time
          = e.time := hct
      have hcal2 : (processDeparture svc e.entity_id
          { s with calendar := rest, current_time := e.time }).calendar
          = rest ++ D := hcal
      have hAC2 : arrCost maxT (processDeparture svc e.entity_id
          { s with calendar := rest, current_time := e.time }).calendar
          = arrCost maxT rest := by
        rw [hcal2, arrCost_append, arrCost_all_dep maxT D hDdep]
        omega
      have hDC2 : depCount (processDeparture svc e.entity_id
          { s with calendar := rest, current_time := e.time }).calendar
          = depCount rest + D.length := by
        rw [hcal2, depCount_append, depCount_all_dep D hDdep]
      have hACs : arrCost maxT s.calendar = arrCost maxT rest := by
        rw [hrest]
        exact arrCost_erase_dep maxT e s.calendar hmem he
      have hDCs : depCount s.calendar = depCount rest + 1 := by
        rw [hrest]
        exact depCount_erase_dep e s.calendar hmem he
      have hbufcase : (D.length = 0 ∧ (processDeparture svc e.entity_id
            { s with calendar := rest, current_time := e.time }).buffer.length
            ≤ s.buffer.length) ∨
          (D.length = 1 ∧ (processDeparture svc e.entity_id
            { s with calendar := rest, current_time := e.time }).buffer.length + 1
            ≤ s.buffer.length) := by
        rcases hDcase with ⟨hD0, hbuf⟩ | ⟨hD1, hbuf⟩
        · exact Or.inl ⟨by rw [hD0]; rfl, hbuf⟩
        · exact Or.inr ⟨hD1, hbuf⟩
      have hpsi : (if e.time < maxT then (1 : ℕ) else 0) ≤ 1 := by
        by_cases hemt : e.time < maxT
        · rw [if_pos hemt]
        · rw [if_neg hemt]
          omega
      unfold phi
      rw [hct2, if_pos hclock, hAC2, hDC2, hACs, hDCs]
      rcases hbufcase with ⟨hD0, hbuf⟩ | ⟨hD1, hbuf⟩ <;> omega

/-- Fuel bounded below by the potential always suffices for the loop to
reach a state failing the guard. -/
theorem runLoop_term (intv svc : ℕ → ℕ → ℚ) (maxT : ℚ) (maxR : ℕ)
    (hintv : ∀ i k, (3 / 2 : ℚ) ≤ intv i k) :
    ∀ (n : ℕ) (s : SimState), phi maxT s < n →
      ∃ s', runLoop intv svc maxT maxR n s = some s' := by
  intro n
  induction n with
  | zero => intro s h; exact absurd h (Nat.not_lt_zero _)
  | succ n ih =>
    intro s h
    by_cases hc : loopCond maxT maxR s
    · obtain ⟨e, rest, hp⟩ := popMin_of_ne_nil s.calendar hc.1
      have hstep : stepD intv svc s = some (processEvent intv svc e
          { s with calendar := rest, current_time := e.time }) := by
        unfold stepD
        rw [hp]
      have hdec := stepD_decrease intv svc maxT maxR hintv s _ hc hstep
      obtain ⟨s', hs'⟩ := ih (processEvent intv svc e
        { s with calendar := rest, current_time := e.time }) (by omega)
      refine ⟨s', ?_⟩
      unfold runLoop
      rw [if_pos hc, hstep]
      exact hs'
    · refine ⟨s, ?_⟩
      unfold runLoop
      rw [if_neg hc]

/-- C6: the main loop terminates — fuel one more than the potential
`phi` suffices for the fuelled loop to return — and whenever `run`
returns, at least one stopping condition holds in the final state: empty
calendar, clock at or past the configured max time, or served count at
or past the configured max-served count; in particular with
max-served-count 0 the loop body never executes, the run ends
immediately in the initial state, and zero requests are served.  (The
interval draws are assumed to be at least the sources' minimum 3/2, as
produced by `getNextArrivalTime`.) -/
theorem run_terminates_and_stop_conditions (intv svc : ℕ → ℕ → ℚ)
    (maxT : ℚ) (maxR : ℕ) (hintv : ∀ i k, (3 / 2 : ℚ) ≤ intv i k) :
    (∀ s : SimState, ∃ s',
      runLoop intv svc maxT maxR (phi maxT s + 1) s = some s') ∧
    (∀ (fuel : ℕ) (s s' : SimState),
      runLoop intv svc maxT maxR fuel s = some s' →
      s'.calendar = [] ∨ maxT ≤ s'.current_time ∨ maxR ≤ s'.requests_served) ∧
    (∀ fuel : ℕ, runLoop intv svc maxT 0 (fuel + 1) (initState intv)
        = some (initState intv) ∧ (initState intv).requests_served = 0) := by
  refine ⟨?_, runLoop_stop intv svc maxT maxR, ?_⟩
  · intro s
    exact runLoop_term intv svc maxT maxR hintv (phi maxT s + 1) s
      (Nat.lt_succ_self _)
  · intro fuel
    refine ⟨?_, rfl⟩
    have hnc : ¬ loopCond maxT 0 (initState intv) := by
      intro hcon
      have h2 := hcon.2.2
      exact absurd h2 (by omega)
    unfold runLoop
    rw [if_neg hnc]

theorem run_terminates_and_stop_conditions_instance :
    (3 / 2 : ℚ) ≤ wIntv 0 0 ∧
    ∃ s', runLoop wIntv wSvc 1 5 (phi 1 (initState wIntv) + 1)
      (initState wIntv) = some s' := by
  have hintv : ∀ i k, (3 / 2 : ℚ) ≤ wIntv i k := by
    intro i k
    unfold wIntv
    by_cases h0 : i = 0
    · rw [if_pos h0]
      norm_num
    · rw [if_neg h0]
      by_cases h1 : i = 1
      · rw [if_pos h1]
        norm_num
      · rw [if_neg h1]
        norm_num
  exact ⟨hintv 0 0,
    (run_terminates_and_stop_conditions wIntv wSvc 1 5 hintv).1 (initState wIntv)⟩

end QueueSim
